import Mathlib

/-!
# webs: event envelope, hub and room bookkeeping

A shallow embedding of the `ws` package (`event.go`, `hub.go`, `room.go`,
and the writer loop of `client.go`):

* the event envelope (`NewEventFromRaw`, `Event.Raw`, `CreateAndSendEvent`);
* the hub loop (`Hub.run`: register, unregister, broadcast to all);
* the room loop (`Room.run`: register, unregister) and the fan-out worker
  (`Room.consumeBroadcastedMessage`);
* the hub's public calls (`BroadcastToRoom`, `SendToClient`, `SubscribeToRoom`,
  `UnsubscribeFromRoom`);
* the writer loop of a client (`Client.writeMessage`), run on a schedule that
  names the `select` case of each iteration and the result of its write.

Modelling choices.

* A Go channel is a bounded FIFO buffer with a closed flag. A send goes through
  when the buffer has room; on a full buffer a blocking send stops as
  `blocked` and a `select` with `default` takes the default; a send on, or a
  `close` of, a closed channel stops as `panicked`. Receivers (the writer
  loop of a client) are not part of a step: during a step nobody receives.
* A `haxmap.Map` is the duplicate-free list of its keys in the order `ForEach`
  visits them. The map keeps its entries sorted by the hash of the key; the
  hasher belongs to `haxmap` and is a parameter of every map here, so a
  statement over all states holds for every visiting order. A client handle
  is named by its ID and a room handle by its name.
* Each processed request is one atomic step on the whole state. The request
  channels of the hub and of the rooms (`register`, `unregister`, `hub.send`)
  are not modelled: a request is taken at the moment its loop processes it.
  The room's publish channel `room.send` is modelled.
* Code that stops early keeps the state it stopped in (`Outcome`).
* Logging and `client.conn.Close()` have no effect on the modelled state.
-/

namespace Webs

/-! ## JSON documents and the `encoding/json` boundary -/

/-- The values `encoding/json` produces when it decodes into `interface{}`:
`nil`, `bool`, `float64`, `string`, `[]interface{}` and `map[string]interface{}`.
`JSON.null` is Go's `nil` interface value. A `number` carries the value of the
`float64` (every finite `float64` is a rational; the type also has rationals
that no `float64` holds), an `object` lists the entries of the map (the type
also has lists with a repeated key or in another order, which no map gives).
The type is wider than the set of decoded values, never narrower. -/
inductive JSON where
  | null
  | bool (b : Bool)
  | number (q : ℚ)
  | string (s : String)
  | array (elems : List JSON)
  | object (members : List (String × JSON))

/-- The Go test `v != nil` on an `interface{}` holding a decoded JSON value. -/
def JSON.isNil : JSON → Bool
  | .null => true
  | _ => false

/-- A byte message as `encoding/json` reads it. `garbage` is a byte string
that is not a JSON text at all. `refused` is a JSON text that the decoder
refuses whatever the target: it holds a number outside the range of `float64`
(such as `1e400`) or is nested deeper than the decoder allows. `text v` is any
byte string that decodes into the value `v` (numbers rounded to `float64`). -/
inductive Bytes where
  | garbage
  | refused
  | text (v : JSON)

/-- Go `json.Marshal` of a decoded value: succeeds and spells a text that
decodes into that value again. -/
def jsonMarshal (v : JSON) : Except String Bytes :=
  .ok (.text v)

/-- Go `json.Unmarshal(message, &rawMessage)` with `rawMessage : []interface{}`:
a syntax error for non-JSON bytes, an error for a text the decoder refuses,
the elements for an array, the untouched nil slice for `null`, and a type
error for every other JSON value. -/
def jsonUnmarshalSlice : Bytes → Except String (List JSON)
  | .garbage => .error "invalid character"
  | .refused => .error "cannot unmarshal number into Go value of type float64"
  | .text .null => .ok []
  | .text (.array elems) => .ok elems
  | .text _ => .error "cannot unmarshal into Go value of type []interface {}"

/-! ## Event envelope (`event.go`) -/

/-- The Go struct `Event`: fields `Type` and `Payload` (`nil` when absent). -/
structure Event where
  type : String
  payload : JSON

/-- Function `NewEventFromRaw` of `event.go`, with the library call
`json.Unmarshal(message, &rawMessage)` as the parameter `unmarshal`. -/
def NewEventFromRawWith (unmarshal : Bytes → Except String (List JSON)) (message : Bytes) :
    Except String Event :=
  match unmarshal message with
  | .error _ => .error "unmarshal Event-Format"
  | .ok rawMessage =>
    if rawMessage.length = 0 then .error "unmarshal Event-Format"
    else
      match rawMessage.head? with
      | some (.string eventType) =>
        let event : Event := { type := eventType, payload := .null }
        if rawMessage.length > 1 then
          .ok { event with payload := rawMessage.getD 1 .null }
        else .ok event
      | _ => .error "Event-Typ muss ein String sein"

/-- Function `NewEventFromRaw` of `event.go`. -/
def NewEventFromRaw (message : Bytes) : Except String Event :=
  NewEventFromRawWith jsonUnmarshalSlice message

/-- Method `Event.Raw` of `event.go`. -/
def Event.Raw (event : Event) : Except String Bytes :=
  let rawArray := [JSON.string event.type]
  let rawArray := if event.payload.isNil then rawArray else rawArray ++ [event.payload]
  jsonMarshal (.array rawArray)

/-- Go `strings.Split(s, sep)` for a one-character separator. -/
def stringsSplit (sep : Char) : List Char → List (List Char)
  | [] => [[]]
  | c :: cs =>
    if c = sep then [] :: stringsSplit sep cs
    else
      match stringsSplit sep cs with
      | [] => [[c]]
      | piece :: pieces => (c :: piece) :: pieces

/-! ## Maps and channels -/

/-- A client's `ID` (a UUID string); it names the `*Client` it belongs to. -/
abbrev ClientID := String

/-- A room's `name`; it names the `*Room` it belongs to. -/
abbrev RoomName := String

/-- The key set of a `haxmap.Map`: every key is held once, and `keys` lists
them in the order `ForEach` visits them. The map keeps its entries sorted by
the hash of the key, so `hash`, the map's hasher, places a new key. The values
are the handles the keys name, so the keys carry the whole map. -/
structure KeySet (κ : Type) where
  hash : κ → Nat
  keys : List κ
  nodup : keys.Nodup

namespace KeySet

variable {κ : Type} [DecidableEq κ]

/-- A freshly created map with the hasher `hash`: `haxmap.New`. -/
def empty (hash : κ → Nat) : KeySet κ := ⟨hash, [], List.nodup_nil⟩

/-- The `ok` of `Get(k)`. -/
def has (m : KeySet κ) (k : κ) : Bool := decide (k ∈ m.keys)

/-- Method `Set(k, v)`: overwrites when the key is there, otherwise inserts
the key at its place in the order of the hashes. -/
def set (m : KeySet κ) (k : κ) : KeySet κ :=
  if h : k ∈ m.keys then m
  else ⟨m.hash, List.orderedInsert (fun a b => m.hash a ≤ m.hash b) k m.keys,
    (List.perm_orderedInsert _ k m.keys).nodup_iff.mpr (List.nodup_cons.mpr ⟨h, m.nodup⟩)⟩

/-- Method `Del(k)`. -/
def del (m : KeySet κ) (k : κ) : KeySet κ :=
  ⟨m.hash, m.keys.filter (fun x => decide (x ≠ k)), m.nodup.filter _⟩

end KeySet

/-- A buffered Go channel of events: the buffered items in arrival order, the
capacity given to `make`, and whether `close` was called on it. -/
structure Chan where
  buf : List Event
  cap : Nat
  closed : Bool

/-- The mutable part of a `*Client`: `client.rooms` and `client.send`. -/
structure Client where
  rooms : KeySet RoomName
  send : Chan

/-- The mutable part of a `*Room`: `room.clients` and `room.send`. -/
structure Room where
  clients : KeySet ClientID
  send : Chan

/-- The hub with the objects it reaches: `hub.clients`, `hub.rooms`, and the
`Room` and `Client` objects by name and ID. -/
structure World where
  clients : KeySet ClientID
  rooms : KeySet RoomName
  room : RoomName → Room
  client : ClientID → Client

/-- How a piece of code stopped: it ran to its end, it is blocked in a channel
send, or it panicked (send on, or close of, a closed channel). -/
inductive Status where
  | done
  | blocked
  | panicked
  deriving DecidableEq, Repr

/-- The state in which a piece of code stopped, and how. -/
structure Outcome where
  state : World
  status : Status

namespace World

/-- Replace the `Client` object `id`. -/
def setClient (w : World) (id : ClientID) (c : Client) : World :=
  { w with client := fun i => if i = id then c else w.client i }

/-- Replace the `Room` object `name`. -/
def setRoom (w : World) (name : RoomName) (r : Room) : World :=
  { w with room := fun n => if n = name then r else w.room n }

/-- The pair `room.clients.Set(client.ID, client)`, `client.rooms.Set(room.name, room)`. -/
def join (w : World) (room : RoomName) (client : ClientID) : World :=
  let w1 := w.setRoom room { w.room room with clients := (w.room room).clients.set client }
  w1.setClient client { w1.client client with rooms := (w1.client client).rooms.set room }

/-- The pair `room.clients.Del(client.ID)`, `client.rooms.Del(room.name)`. -/
def leave (w : World) (room : RoomName) (client : ClientID) : World :=
  let w1 := w.setRoom room { w.room room with clients := (w.room room).clients.del client }
  w1.setClient client { w1.client client with rooms := (w1.client client).rooms.del room }

/-- The blocking send `client.send <- event`. -/
def chanSend (w : World) (client : ClientID) (event : Event) : Outcome :=
  let ch := (w.client client).send
  if ch.closed then ⟨w, .panicked⟩
  else if ch.buf.length < ch.cap then
    ⟨w.setClient client { w.client client with send := { ch with buf := ch.buf ++ [event] } }, .done⟩
  else ⟨w, .blocked⟩

/-- The non-blocking send `select { case client.send <- event: default: }`. -/
def chanTrySend (w : World) (client : ClientID) (event : Event) : Outcome :=
  let ch := (w.client client).send
  if ch.closed then ⟨w, .panicked⟩
  else if ch.buf.length < ch.cap then
    ⟨w.setClient client { w.client client with send := { ch with buf := ch.buf ++ [event] } }, .done⟩
  else ⟨w, .done⟩

/-- Method `ForEach` over the keys of a map, the callback returning `true`: the
callback runs on each key in turn until one does not run to its end. -/
def forEach {κ : Type} (body : World → κ → Outcome) : List κ → World → Outcome
  | [], w => ⟨w, .done⟩
  | k :: ks, w =>
    let o := body w k
    if o.status = .done then forEach body ks o.state else o

end World

/-! ## The hub loop (`hub.go`, `Hub.run`) -/

/-- Loop `Hub.run`, case `client := <-hub.register`. -/
def Hub.runRegister (w : World) (client : ClientID) : Outcome :=
  ⟨{ w with clients := w.clients.set client }, .done⟩

/-- Loop `Hub.run`, case `client := <-hub.unregister`: when the client is in the
registry, it leaves every room of `client.rooms`, its `send` channel is closed
(a panic when it is closed already) and it is deleted from the registry. -/
def Hub.runUnregister (w : World) (client : ClientID) : Outcome :=
  if w.clients.has client then
    let w1 := (w.client client).rooms.keys.foldl (fun acc room => acc.leave room client) w
    if (w1.client client).send.closed then ⟨w1, .panicked⟩
    else
      let w2 := w1.setClient client
        { w1.client client with send := { (w1.client client).send with closed := true } }
      ⟨{ w2 with clients := w2.clients.del client }, .done⟩
  else ⟨w, .done⟩

/-- Loop `Hub.run`, case `event := <-hub.send`: a blocking send to every client of
the registry. -/
def Hub.runSend (w : World) (event : Event) : Outcome :=
  World.forEach (fun acc client => acc.chanSend client event) w.clients.keys w

/-! ## The room loop and the fan-out worker (`room.go`) -/

/-- Loop `Room.run`, case `client := <-room.register`. -/
def Room.runRegister (w : World) (room : RoomName) (client : ClientID) : Outcome :=
  ⟨w.join room client, .done⟩

/-- Loop `Room.run`, case `client := <-room.unregister`. -/
def Room.runUnregister (w : World) (room : RoomName) (client : ClientID) : Outcome :=
  if (w.room room).clients.has client then ⟨w.leave room client, .done⟩
  else ⟨w, .done⟩

/-- The body of the worker loop for one received event: a non-blocking send to
every member of the room. -/
def Room.fanOut (w : World) (room : RoomName) (event : Event) : Outcome :=
  World.forEach (fun acc client => acc.chanTrySend client event) (w.room room).clients.keys w

/-- The worker loop `for event := range room.send` over the events `pending`
in the room's channel: each is received (taken off the channel) and fanned
out, in order, until the channel is empty. -/
def Room.work (room : RoomName) : List Event → World → Outcome
  | [], w => ⟨w, .done⟩
  | event :: pending, w =>
    let w1 := w.setRoom room
      { w.room room with send := { (w.room room).send with buf := pending } }
    let o := Room.fanOut w1 room event
    if o.status = .done then Room.work room pending o.state else o

/-- Worker `Room.consumeBroadcastedMessage` (one worker) run on what the room's
channel holds. -/
def Room.consumeBroadcastedMessage (w : World) (room : RoomName) : Outcome :=
  Room.work room (w.room room).send.buf w

/-! ## The hub's public calls (`hub.go`, `event.go`) -/

/-- Method `Hub.BroadcastToRoom`: a blocking send on the room's channel when the room
exists. -/
def Hub.BroadcastToRoom (w : World) (roomName : RoomName) (event : Event) : Outcome :=
  if w.rooms.has roomName then
    let ch := (w.room roomName).send
    if ch.closed then ⟨w, .panicked⟩
    else if ch.buf.length < ch.cap then
      ⟨w.setRoom roomName { w.room roomName with send := { ch with buf := ch.buf ++ [event] } },
        .done⟩
    else ⟨w, .blocked⟩
  else ⟨w, .done⟩

/-- Method `Hub.SendToClient`. -/
def Hub.SendToClient (w : World) (client : ClientID) (event : Event) : Outcome :=
  w.chanSend client event

/-- Method `Hub.SubscribeToRoom`, the request taken at the moment the room's loop
processes it. -/
def Hub.SubscribeToRoom (w : World) (roomName : RoomName) (client : ClientID) : Outcome :=
  if w.rooms.has roomName then Room.runRegister w roomName client else ⟨w, .done⟩

/-- Method `Hub.UnsubscribeFromRoom`, the request taken at the moment the room's loop
processes it. -/
def Hub.UnsubscribeFromRoom (w : World) (roomName : RoomName) (client : ClientID) : Outcome :=
  if w.rooms.has roomName then Room.runUnregister w roomName client else ⟨w, .done⟩

/-- The room name `strings.Split(eventType, ":")[0]`. -/
def roomOfType (eventType : String) : RoomName :=
  String.mk ((stringsSplit ':' eventType.data).headD [])

/-- Function `CreateAndSendEvent` of `event.go`. -/
def CreateAndSendEvent (w : World) (eventType : String) (payload : JSON) : Outcome :=
  let outgoingEvent : Event := { type := eventType, payload := payload }
  let room := roomOfType eventType
  Hub.BroadcastToRoom w room outgoingEvent

/-- Call of `Hub.BroadcastToRoom` followed by the room's worker emptying the room's
channel. -/
def publishToRoom (w : World) (roomName : RoomName) (event : Event) : Outcome :=
  let o := Hub.BroadcastToRoom w roomName event
  if o.status = .done ∧ w.rooms.has roomName then Room.consumeBroadcastedMessage o.state roomName
  else o

/-! ## Requests and runs -/

/-- The requests the loops process and the calls the hub offers. -/
inductive Request where
  | hubRegister (client : ClientID)
  | hubUnregister (client : ClientID)
  | broadcastToAll (event : Event)
  | roomRegister (room : RoomName) (client : ClientID)
  | roomUnregister (room : RoomName) (client : ClientID)
  | roomWork (room : RoomName)
  | subscribe (room : RoomName) (client : ClientID)
  | unsubscribe (room : RoomName) (client : ClientID)
  | broadcastToRoom (room : RoomName) (event : Event)
  | sendToClient (client : ClientID) (event : Event)

/-- One request, processed. -/
def World.step (w : World) : Request → Outcome
  | .hubRegister client => Hub.runRegister w client
  | .hubUnregister client => Hub.runUnregister w client
  | .broadcastToAll event => Hub.runSend w event
  | .roomRegister room client => Room.runRegister w room client
  | .roomUnregister room client => Room.runUnregister w room client
  | .roomWork room => Room.consumeBroadcastedMessage w room
  | .subscribe room client => Hub.SubscribeToRoom w room client
  | .unsubscribe room client => Hub.UnsubscribeFromRoom w room client
  | .broadcastToRoom room event => Hub.BroadcastToRoom w room event
  | .sendToClient client event => Hub.SendToClient w client event

/-- A sequence of requests processed one after the other; the run stops at
the first request that does not run to its end. -/
def World.exec (w : World) : List Request → Outcome
  | [] => ⟨w, .done⟩
  | q :: qs =>
    let o := w.step q
    if o.status = .done then o.state.exec qs else o

/-- Function `newClient`: no room references, an open empty channel of the configured
size. -/
def newClient (hash : String → Nat) (bufferedMessageSize : Nat) : Client :=
  { rooms := KeySet.empty hash, send := ⟨[], bufferedMessageSize, false⟩ }

/-- Function `newRoom`: no members, an open empty channel of the configured size. -/
def newRoom (hash : String → Nat) (bufferedMessageSize : Nat) : Room :=
  { clients := KeySet.empty hash, send := ⟨[], bufferedMessageSize, false⟩ }

/-- Function `NewHub` followed by `CreateRooms(roomNames)`: an empty registry, the
named rooms set one after the other, and clients and rooms as `newClient` and
`newRoom` make them. All maps have string keys and the hasher `hash`. -/
def NewHub (hash : String → Nat) (roomNames : List RoomName) (roomSize clientSize : Nat) :
    World :=
  { clients := KeySet.empty hash
    rooms := roomNames.foldl KeySet.set (KeySet.empty hash)
    room := fun _ => newRoom hash roomSize
    client := fun _ => newClient hash clientSize }

/-! ## Properties of states -/

/-- Membership symmetry: `c` is a member of `r` exactly when `r` is among the
room references of `c`. -/
def MembershipSymmetry (w : World) : Prop :=
  ∀ (c : ClientID) (r : RoomName),
    c ∈ (w.room r).clients.keys ↔ r ∈ (w.client c).rooms.keys

/-- No room has a member and no client a room reference. -/
def NoMemberships (w : World) : Prop :=
  (∀ r : RoomName, (w.room r).clients.keys = []) ∧
    ∀ c : ClientID, (w.client c).rooms.keys = []

/-- The frame of a delivery to `targets`: registry, rooms, member sets and room
references are the same, every channel keeps its capacity and closed flag, and
a client outside `targets` is untouched. -/
def Frame (targets : List ClientID) (w w' : World) : Prop :=
  w'.clients = w.clients ∧ w'.rooms = w.rooms ∧
  (∀ r : RoomName, (w'.room r).clients = (w.room r).clients) ∧
  (∀ c : ClientID, (w'.client c).rooms = (w.client c).rooms) ∧
  (∀ c : ClientID, (w'.client c).send.cap = (w.client c).send.cap ∧
    (w'.client c).send.closed = (w.client c).send.closed) ∧
  (∀ c : ClientID, c ∉ targets → w'.client c = w.client c)

/-- The frame of a publish to room `n` on the side of the rooms: every other
room object is untouched, its publish channel included, and the channel of
room `n` keeps its capacity and closed flag. -/
def RoomFrame (n : RoomName) (w w' : World) : Prop :=
  (∀ r : RoomName, r ≠ n → w'.room r = w.room r) ∧
  (w'.room n).send.cap = (w.room n).send.cap ∧
  (w'.room n).send.closed = (w.room n).send.closed

/-- A hasher for the maps of the example states. It stands in for the hasher
of `haxmap`, which is not part of the repository; what is stated of the
example states built with it does not depend on the order it gives. -/
def keyHash (s : String) : Nat :=
  s.data.foldl (fun h c => (h * 31 + c.toNat) % 4294967296) 0

/-- A hub with the one room `chat`, room channels of size 4 and client
channels of size 2. -/
def chatHub : World := NewHub keyHash ["chat"] 4 2

/-- The client `a` subscribed to `chat` while it is not in the hub's registry. -/
def strayMember : World := (chatHub.exec [.subscribe "chat" "a"]).state

/-- The client `a` registered, unregistered (its channel closed) and
registered again. -/
def closedRegistered : World :=
  (chatHub.exec [.hubRegister "a", .hubUnregister "a", .hubRegister "a"]).state

/-- The client `a` registered and subscribed to `chat`. -/
def registeredMember : World :=
  (chatHub.exec [.hubRegister "a", .subscribe "chat" "a"]).state

/-- The chat message number `n`. -/
def chatEvent (n : Nat) : Event := ⟨"chat:message", .number n⟩

/-- The room `chat` with the members `a` (channel of size 2) and `b` (channel
of size 8), both channels empty, and three events published to the room. -/
def backpressureHub : World :=
  (World.exec { chatHub with client := fun id => if id = "b" then newClient keyHash 8 else newClient keyHash 2 }
    [.roomRegister "chat" "a", .roomRegister "chat" "b", .broadcastToRoom "chat" (chatEvent 1),
     .broadcastToRoom "chat" (chatEvent 2), .broadcastToRoom "chat" (chatEvent 3)]).state

/-- The clients `a` (channel of size 2, holding two events: full) and `b`
(channel of size 8, empty), both registered and members of `chat`. -/
def fullQueueHub : World :=
  (World.exec { chatHub with client := fun id => if id = "b" then newClient keyHash 8 else newClient keyHash 2 }
    [.hubRegister "a", .hubRegister "b", .roomRegister "chat" "a", .roomRegister "chat" "b",
     .sendToClient "a" (chatEvent 1), .sendToClient "a" (chatEvent 2)]).state

/-- A second hasher for example states: it orders the keys the other way
round than `keyHash`. -/
def reverseHash (s : String) : Nat := 4294967296 - keyHash s

/-- The state `fullQueueHub` built on maps with the hasher `reverseHash`: the
same clients and memberships, the keys in the opposite visiting order. -/
def fullQueueHubReversed : World :=
  (World.exec { NewHub reverseHash ["chat"] 4 2 with
      client := fun id => if id = "b" then newClient reverseHash 8 else newClient reverseHash 2 }
    [.hubRegister "a", .hubRegister "b", .roomRegister "chat" "a", .roomRegister "chat" "b",
     .sendToClient "a" (chatEvent 1), .sendToClient "a" (chatEvent 2)]).state

/-- The room `chat` with two members: `b`, which the hub has unregistered (its
channel is closed) and which was subscribed after that, and `a`, registered,
with an open empty channel of size 2; three events are published to the room. -/
def closedMemberHub : World :=
  (chatHub.exec [.hubRegister "b", .hubUnregister "b", .subscribe "chat" "b",
    .hubRegister "a", .subscribe "chat" "a", .broadcastToRoom "chat" (chatEvent 1),
    .broadcastToRoom "chat" (chatEvent 2), .broadcastToRoom "chat" (chatEvent 3)]).state

/-! ## The writer loop (`client.go`, `Client.writeMessage`) -/

/-- The message types `writeMessage` passes to `conn.WriteMessage`:
`websocket.PingMessage`, `websocket.CloseMessage`, `websocket.TextMessage`. -/
inductive MessageType where
  | ping
  | close
  | text
  deriving DecidableEq, Repr

/-- One call `client.conn.WriteMessage(messageType, data)` and whether it
returned an error. -/
structure WriteCall where
  messageType : MessageType
  data : Option Bytes
  err : Bool

/-- The case the `select` of the writer loop takes in one iteration, with the
error result of the `conn.WriteMessage` call that iteration makes:
`ticker` for `case <-ticker.C`, `send` for `case event, ok := <-client.send`. -/
inductive Select where
  | ticker (writeErr : Bool)
  | send (writeErr : Bool)

/-- Where the `for` loop of `writeMessage` stands: the state, the calls made
on the connection so far, and whether the loop has executed `return`. -/
structure LoopState where
  world : World
  calls : List WriteCall
  returned : Bool

/-- The `for { select { ... } }` of `writeMessage`, one iteration per taken
case. The receive case is ready when `client.send` holds an item (it is taken
off, `ok` is true) or is closed and empty (`ok` is false); a `send` choice on
an open empty channel is not ready and is not taken. With no choice left the
loop waits in the `select`. -/
def Client.writeLoop (client : ClientID) : List Select → World → List WriteCall → LoopState
  | [], w, calls => ⟨w, calls, false⟩
  | .ticker writeErr :: rest, w, calls =>
    let calls1 := calls ++ [⟨.ping, none, writeErr⟩]
    if writeErr then ⟨w, calls1, true⟩
    else Client.writeLoop client rest w calls1
  | .send writeErr :: rest, w, calls =>
    match (w.client client).send.buf with
    | [] =>
      if (w.client client).send.closed then
        ⟨w, calls ++ [⟨.close, none, writeErr⟩], true⟩
      else Client.writeLoop client rest w calls
    | event :: pending =>
      let w1 := w.setClient client
        { w.client client with send := { (w.client client).send with buf := pending } }
      match event.Raw with
      | .error _ => Client.writeLoop client rest w1 calls
      | .ok message =>
        let calls1 := calls ++ [⟨.text, some message, writeErr⟩]
        if writeErr then ⟨w1, calls1, true⟩
        else Client.writeLoop client rest w1 calls1

/-- What a run of `writeMessage` leaves: the state, the calls made on the
connection, whether the function returned, and the clients it sent on
`hub.unregister`. -/
structure Writer where
  world : World
  calls : List WriteCall
  returned : Bool
  unregister : List ClientID

/-- Method `Client.writeMessage` of `client.go`: the loop, and when the loop
returns the deferred function, which stops the ticker and sends the client on
`hub.unregister`. -/
def Client.writeMessage (w : World) (client : ClientID) (schedule : List Select) : Writer :=
  let loop := Client.writeLoop client schedule w []
  { world := loop.world
    calls := loop.calls
    returned := loop.returned
    unregister := if loop.returned then [client] else [] }

/-- The client `a` registered and then unregistered by the hub: its channel is
closed and empty and it is not in the registry. -/
def unregisteredClient : World :=
  (chatHub.exec [.hubRegister "a", .hubUnregister "a"]).state

/-! ## The event envelope: theorems -/

/-- C1. Round trip of the event envelope: for every event `e` (a string type
and a payload that is absent, `nil`, or a JSON value), `e.Raw()` succeeds and
`NewEventFromRaw` on its bytes succeeds and returns an event with the same type
and the same payload. -/
theorem NewEventFromRaw_Raw (e : Event) :
    ∃ message, e.Raw = .ok message ∧ NewEventFromRaw message = .ok e := by
  obtain ⟨t, p⟩ := e
  cases p <;> exact ⟨_, rfl, rfl⟩

/-- C2, as stated, fails: a JSON array of three elements whose first element
is a string is decoded into an event; the third element is ignored. -/
theorem NewEventFromRaw_three_elements :
    [JSON.string "a", JSON.number 1, JSON.number 2].length = 3 ∧
      NewEventFromRaw (.text (.array [.string "a", .number 1, .number 2]))
        = .ok ⟨"a", .number 1⟩ :=
  ⟨rfl, rfl⟩

/-- C2, amended. `NewEventFromRaw` returns an event exactly when
`json.Unmarshal` decodes its input, without error, into a slice of at least one
element whose first element is a string; the type is then the first element
and the payload the second element if there is one, absent (`nil`) otherwise,
and the elements after the second play no part in the result. Every other
input, one that `json.Unmarshal` refuses included, yields an error. This holds
whatever `json.Unmarshal` does, and `NewEventFromRaw` is the function with the
decoder of this file. -/
theorem NewEventFromRaw_ok_iff (unmarshal : Bytes → Except String (List JSON))
    (message : Bytes) (e : Event) :
    (NewEventFromRawWith unmarshal message = .ok e ↔
      ∃ t rest, unmarshal message = .ok (.string t :: rest) ∧ e = ⟨t, rest.headD .null⟩) ∧
    ((¬ ∃ t rest, unmarshal message = .ok (.string t :: rest)) →
      ∃ err, NewEventFromRawWith unmarshal message = .error err) ∧
    NewEventFromRaw message = NewEventFromRawWith jsonUnmarshalSlice message ∧
    (NewEventFromRaw message = .ok e ↔
      ∃ t rest, jsonUnmarshalSlice message = .ok (.string t :: rest) ∧
        e = ⟨t, rest.headD .null⟩) := by
  have key : ∀ (u : Bytes → Except String (List JSON)),
      (NewEventFromRawWith u message = .ok e ↔
        ∃ t rest, u message = .ok (.string t :: rest) ∧ e = ⟨t, rest.headD .null⟩) ∧
      ((¬ ∃ t rest, u message = .ok (.string t :: rest)) →
        ∃ err, NewEventFromRawWith u message = .error err) := by
    intro u
    obtain ⟨t0, p0⟩ := e
    unfold NewEventFromRawWith
    cases hu : u message with
    | error err => simp
    | ok rawMessage =>
      cases rawMessage with
      | nil => simp
      | cons x rest =>
        cases x with
        | string t =>
          cases rest <;> simp <;>
          · constructor
            · rintro ⟨rfl, rfl⟩
              exact ⟨_, _, ⟨rfl, rfl⟩, rfl, rfl⟩
            · rintro ⟨_, _, ⟨rfl, rfl⟩, rfl, rfl⟩
              exact ⟨rfl, rfl⟩
        | _ => cases rest <;> simp
  exact ⟨(key unmarshal).1, (key unmarshal).2, rfl, (key jsonUnmarshalSlice).1⟩

/-- C3. `NewEventFromRaw` rejects malformed frames: the empty JSON array, an
input that is not a JSON array at all (bytes that are no JSON text, or a JSON
value other than an array), and a JSON array whose first element is not a
string each yield an error and no event. -/
theorem NewEventFromRaw_rejects (message : Bytes)
    (h : message = .text (.array []) ∨
      (∀ elems, message ≠ .text (.array elems)) ∨
      ∃ x rest, message = .text (.array (x :: rest)) ∧ ∀ t, x ≠ .string t) :
    ∃ err, NewEventFromRaw message = .error err := by
  rcases h with h | h | ⟨x, rest, h, hx⟩
  · subst h
    exact ⟨_, rfl⟩
  · cases message with
    | garbage => exact ⟨_, rfl⟩
    | refused => exact ⟨_, rfl⟩
    | text v =>
      cases v with
      | array elems => exact absurd rfl (h elems)
      | _ => exact ⟨_, rfl⟩
  · subst h
    cases x with
    | string t => exact absurd rfl (hx t)
    | _ => exact ⟨_, rfl⟩

/-- C3 at concrete inputs: the empty array, a JSON object, and `[1, "a"]`. -/
theorem NewEventFromRaw_rejects_witness :
    (∃ err, NewEventFromRaw (.text (.array [])) = .error err) ∧
    (∃ err, NewEventFromRaw (.text (.object [])) = .error err) ∧
    (∃ err, NewEventFromRaw (.text (.array [.number 1, .string "a"])) = .error err) :=
  ⟨NewEventFromRaw_rejects _ (Or.inl rfl),
   NewEventFromRaw_rejects _ (Or.inr (Or.inl (fun _ h => by cases h))),
   NewEventFromRaw_rejects _ (Or.inr (Or.inr ⟨_, _, rfl, fun _ h => by cases h⟩))⟩

/-! ## Type-to-room derivation -/

theorem stringsSplit_ne_nil (sep : Char) (cs : List Char) : stringsSplit sep cs ≠ [] := by
  cases cs with
  | nil => simp [stringsSplit]
  | cons c cs =>
    unfold stringsSplit
    split
    · simp
    · split <;> simp

theorem stringsSplit_headD (sep : Char) (cs : List Char) :
    (stringsSplit sep cs).headD [] = cs.takeWhile (fun c => decide (c ≠ sep)) := by
  induction cs with
  | nil => simp [stringsSplit]
  | cons c cs ih =>
    unfold stringsSplit
    by_cases hc : c = sep
    · simp [hc]
    · simp only [hc, if_false]
      cases hs : stringsSplit sep cs with
      | nil => exact absurd hs (stringsSplit_ne_nil sep cs)
      | cons piece pieces =>
        rw [hs] at ih
        simp only [List.headD_cons] at ih
        simp [List.takeWhile_cons, hc, ih]

theorem roomOfType_data (t : String) :
    (roomOfType t).data = t.data.takeWhile (fun c => decide (c ≠ ':')) :=
  stringsSplit_headD ':' t.data

/-- C10. Type-to-room derivation: `CreateAndSendEvent` hands the event with
type `t` and the given payload to `BroadcastToRoom` for the room `roomOfType t`,
which puts it at the end of that room's channel when the room exists and the
channel is open with space left; `t` is that room name followed by nothing or
by a rest starting with `:`, the room name holds no `:`, and
`chat:message` goes to `chat`, `roulette:spin` to `roulette`. -/
theorem CreateAndSendEvent_room (w : World) (t : String) (payload : JSON) :
    CreateAndSendEvent w t payload = Hub.BroadcastToRoom w (roomOfType t) ⟨t, payload⟩ ∧
    (w.rooms.has (roomOfType t) = true → ((w.room (roomOfType t)).send.closed = false) →
      (w.room (roomOfType t)).send.buf.length < (w.room (roomOfType t)).send.cap →
      (CreateAndSendEvent w t payload).status = .done ∧
      ((CreateAndSendEvent w t payload).state.room (roomOfType t)).send.buf
        = (w.room (roomOfType t)).send.buf ++ [⟨t, payload⟩]) ∧
    (∃ rest, t.data = (roomOfType t).data ++ rest ∧ (rest = [] ∨ rest.head? = some ':')) ∧
    ':' ∉ (roomOfType t).data ∧
    roomOfType "chat:message" = "chat" ∧ roomOfType "roulette:spin" = "roulette" := by
  refine ⟨rfl, ?_, ?_, ?_, by decide, by decide⟩
  · intro hr hc hl
    simp [CreateAndSendEvent, Hub.BroadcastToRoom, hr, hc, hl, World.setRoom]
  · refine ⟨t.data.dropWhile (fun c => decide (c ≠ ':')), ?_, ?_⟩
    · rw [roomOfType_data, List.takeWhile_append_dropWhile]
    · cases hd : t.data.dropWhile (fun c => decide (c ≠ ':')) with
      | nil => exact Or.inl rfl
      | cons c cs =>
        right
        have h := List.head_dropWhile_not (fun c => decide (c ≠ ':')) t.data
          (by rw [hd]; simp)
        simp only [hd, List.head_cons] at h
        simpa using h
  · rw [roomOfType_data]
    intro h
    have := List.mem_takeWhile_imp h
    simp at this

/-! ## Key sets -/

theorem KeySet.mem_set {κ : Type} [DecidableEq κ] (m : KeySet κ) (k x : κ) :
    x ∈ (m.set k).keys ↔ x = k ∨ x ∈ m.keys := by
  unfold KeySet.set
  split
  · constructor
    · exact Or.inr
    · rintro (rfl | h)
      · assumption
      · exact h
  · simp [List.mem_orderedInsert]

theorem KeySet.mem_del {κ : Type} [DecidableEq κ] (m : KeySet κ) (k x : κ) :
    x ∈ (m.del k).keys ↔ x ∈ m.keys ∧ x ≠ k := by
  simp [KeySet.del]

theorem KeySet.has_iff {κ : Type} [DecidableEq κ] (m : KeySet κ) (k : κ) :
    m.has k = true ↔ k ∈ m.keys := by
  simp [KeySet.has]

/-! ## Joining and leaving a room -/

theorem World.join_room_mem (w : World) (r : RoomName) (c : ClientID)
    (r' : RoomName) (c' : ClientID) :
    c' ∈ ((w.join r c).room r').clients.keys ↔
      (c' = c ∧ r' = r) ∨ c' ∈ (w.room r').clients.keys := by
  by_cases hr : r' = r
  · subst hr
    simp [World.join, World.setRoom, World.setClient, KeySet.mem_set]
  · simp [World.join, World.setRoom, World.setClient, hr]

theorem World.join_client_mem (w : World) (r : RoomName) (c : ClientID)
    (r' : RoomName) (c' : ClientID) :
    r' ∈ ((w.join r c).client c').rooms.keys ↔
      (c' = c ∧ r' = r) ∨ r' ∈ (w.client c').rooms.keys := by
  by_cases hc : c' = c
  · subst hc
    simp [World.join, World.setRoom, World.setClient, KeySet.mem_set]
  · simp [World.join, World.setRoom, World.setClient, hc]

theorem World.leave_room_mem (w : World) (r : RoomName) (c : ClientID)
    (r' : RoomName) (c' : ClientID) :
    c' ∈ ((w.leave r c).room r').clients.keys ↔
      c' ∈ (w.room r').clients.keys ∧ ¬ (c' = c ∧ r' = r) := by
  by_cases hr : r' = r
  · subst hr
    simp [World.leave, World.setRoom, World.setClient, KeySet.mem_del]
  · simp [World.leave, World.setRoom, World.setClient, hr]

theorem World.leave_client_mem (w : World) (r : RoomName) (c : ClientID)
    (r' : RoomName) (c' : ClientID) :
    r' ∈ ((w.leave r c).client c').rooms.keys ↔
      r' ∈ (w.client c').rooms.keys ∧ ¬ (c' = c ∧ r' = r) := by
  by_cases hc : c' = c
  · subst hc
    simp [World.leave, World.setRoom, World.setClient, KeySet.mem_del]
  · simp [World.leave, World.setRoom, World.setClient, hc]

theorem World.leave_clients (w : World) (r : RoomName) (c : ClientID) :
    (w.leave r c).clients = w.clients ∧ (w.leave r c).rooms = w.rooms ∧
    (∀ c', ((w.leave r c).client c').send = (w.client c').send) ∧
    (∀ r', ((w.leave r c).room r').send = (w.room r').send) := by
  refine ⟨rfl, rfl, ?_, ?_⟩
  · intro c'
    by_cases hc : c' = c
    · subst hc
      simp [World.leave, World.setRoom, World.setClient]
    · simp [World.leave, World.setRoom, World.setClient, hc]
  · intro r'
    by_cases hr : r' = r
    · subst hr
      simp [World.leave, World.setRoom, World.setClient]
    · simp [World.leave, World.setRoom, World.setClient, hr]

/-- What the loop of `Hub.run` over `client.rooms` leaves of the member sets. -/
theorem World.leaveAll_room_mem (c : ClientID) (ks : List RoomName) (w : World)
    (r' : RoomName) (c' : ClientID) :
    c' ∈ ((ks.foldl (fun acc room => acc.leave room c) w).room r').clients.keys ↔
      c' ∈ (w.room r').clients.keys ∧ ¬ (c' = c ∧ r' ∈ ks) := by
  induction ks generalizing w with
  | nil => simp
  | cons k ks ih =>
    rw [List.foldl_cons, ih, World.leave_room_mem]
    simp only [List.mem_cons]
    tauto

/-- What the loop of `Hub.run` over `client.rooms` leaves of the room references. -/
theorem World.leaveAll_client_mem (c : ClientID) (ks : List RoomName) (w : World)
    (r' : RoomName) (c' : ClientID) :
    r' ∈ ((ks.foldl (fun acc room => acc.leave room c) w).client c').rooms.keys ↔
      r' ∈ (w.client c').rooms.keys ∧ ¬ (c' = c ∧ r' ∈ ks) := by
  induction ks generalizing w with
  | nil => simp
  | cons k ks ih =>
    rw [List.foldl_cons, ih, World.leave_client_mem]
    simp only [List.mem_cons]
    tauto

theorem World.leaveAll_clients (c : ClientID) (ks : List RoomName) (w : World) :
    (ks.foldl (fun acc room => acc.leave room c) w).clients = w.clients ∧
    (ks.foldl (fun acc room => acc.leave room c) w).rooms = w.rooms ∧
    (∀ c', ((ks.foldl (fun acc room => acc.leave room c) w).client c').send
      = (w.client c').send) ∧
    (∀ r', ((ks.foldl (fun acc room => acc.leave room c) w).room r').send
      = (w.room r').send) := by
  induction ks generalizing w with
  | nil => simp
  | cons k ks ih =>
    rw [List.foldl_cons]
    obtain ⟨h1, h2, h3, h4⟩ := ih (w.leave k c)
    obtain ⟨g1, g2, g3, g4⟩ := World.leave_clients w k c
    exact ⟨h1.trans g1, h2.trans g2, fun c' => (h3 c').trans (g3 c'),
      fun r' => (h4 r').trans (g4 r')⟩

/-! ## Deliveries change channels only -/

theorem Frame.refl (ts : List ClientID) (w : World) : Frame ts w w :=
  ⟨rfl, rfl, fun _ => rfl, fun _ => rfl, fun _ => ⟨rfl, rfl⟩, fun _ _ => rfl⟩

theorem Frame.trans {ts : List ClientID} {w1 w2 w3 : World}
    (h : Frame ts w1 w2) (g : Frame ts w2 w3) : Frame ts w1 w3 := by
  obtain ⟨h1, h2, h3, h4, h5, h6⟩ := h
  obtain ⟨g1, g2, g3, g4, g5, g6⟩ := g
  exact ⟨g1.trans h1, g2.trans h2, fun r => (g3 r).trans (h3 r),
    fun c => (g4 c).trans (h4 c),
    fun c => ⟨(g5 c).1.trans (h5 c).1, (g5 c).2.trans (h5 c).2⟩,
    fun c hc => (g6 c hc).trans (h6 c hc)⟩

theorem Frame.mono {ts ts' : List ClientID} {w w' : World}
    (h : Frame ts w w') (hsub : ∀ c, c ∈ ts → c ∈ ts') : Frame ts' w w' := by
  obtain ⟨h1, h2, h3, h4, h5, h6⟩ := h
  exact ⟨h1, h2, h3, h4, h5, fun c hc => h6 c (fun hin => hc (hsub c hin))⟩

theorem Frame.keeps_symmetry {ts : List ClientID} {w w' : World}
    (h : Frame ts w w') (hs : MembershipSymmetry w) : MembershipSymmetry w' := by
  intro c r
  rw [h.2.2.1 r, h.2.2.2.1 c]
  exact hs c r

theorem World.chanSend_frame (w : World) (c : ClientID) (e : Event) :
    Frame [c] w (w.chanSend c e).state := by
  unfold World.chanSend
  simp only
  split
  · exact Frame.refl _ _
  · split
    · refine ⟨rfl, rfl, fun _ => rfl, ?_, ?_, ?_⟩
      · intro c'
        by_cases hc : c' = c
        · subst hc
          simp [World.setClient]
        · simp [World.setClient, hc]
      · intro c'
        by_cases hc : c' = c
        · subst hc
          simp [World.setClient]
        · simp [World.setClient, hc]
      · intro c' hc
        have hc : c' ≠ c := by simpa using hc
        simp [World.setClient, hc]
    · exact Frame.refl _ _

theorem World.chanTrySend_frame (w : World) (c : ClientID) (e : Event) :
    Frame [c] w (w.chanTrySend c e).state := by
  unfold World.chanTrySend
  simp only
  split
  · exact Frame.refl _ _
  · split
    · refine ⟨rfl, rfl, fun _ => rfl, ?_, ?_, ?_⟩
      · intro c'
        by_cases hc : c' = c
        · subst hc
          simp [World.setClient]
        · simp [World.setClient, hc]
      · intro c'
        by_cases hc : c' = c
        · subst hc
          simp [World.setClient]
        · simp [World.setClient, hc]
      · intro c' hc
        have hc : c' ≠ c := by simpa using hc
        simp [World.setClient, hc]
    · exact Frame.refl _ _

theorem World.forEach_frame (body : World → ClientID → Outcome)
    (hbody : ∀ w k, Frame [k] w (body w k).state) (ks : List ClientID) (w : World) :
    Frame ks w (World.forEach body ks w).state := by
  induction ks generalizing w with
  | nil => exact Frame.refl _ _
  | cons k ks ih =>
    unfold World.forEach
    simp only
    have hk : Frame (k :: ks) w (body w k).state :=
      Frame.mono (hbody w k) (fun c hc => by
        rw [List.mem_singleton] at hc
        exact hc ▸ List.mem_cons_self _ _)
    split
    · exact Frame.trans hk (Frame.mono (ih _) (fun c hc => List.mem_cons_of_mem _ hc))
    · exact hk

theorem Hub.runSend_frame (w : World) (e : Event) :
    Frame w.clients.keys w (Hub.runSend w e).state :=
  World.forEach_frame _ (fun w k => World.chanSend_frame w k e) _ _

theorem Room.fanOut_frame (w : World) (r : RoomName) (e : Event) :
    Frame (w.room r).clients.keys w (Room.fanOut w r e).state :=
  World.forEach_frame _ (fun w k => World.chanTrySend_frame w k e) _ _

theorem World.setRoomSend_frame (w : World) (r : RoomName) (ch : Chan) (ts : List ClientID) :
    Frame ts w (w.setRoom r { w.room r with send := ch }) := by
  refine ⟨rfl, rfl, ?_, fun _ => rfl, fun _ => ⟨rfl, rfl⟩, fun _ _ => rfl⟩
  intro r'
  by_cases hr : r' = r
  · subst hr
    simp [World.setRoom]
  · simp [World.setRoom, hr]

theorem Room.work_frame (r : RoomName) (pending : List Event) (w : World) :
    Frame (w.room r).clients.keys w (Room.work r pending w).state := by
  induction pending generalizing w with
  | nil => exact Frame.refl _ _
  | cons e pending ih =>
    unfold Room.work
    simp only
    have h1 := World.setRoomSend_frame w r { (w.room r).send with buf := pending }
      (w.room r).clients.keys
    have h2 := Room.fanOut_frame
      (w.setRoom r { w.room r with send := { (w.room r).send with buf := pending } }) r e
    rw [h1.2.2.1 r] at h2
    have h12 := Frame.trans h1 h2
    split
    · have h3 := ih (Room.fanOut
        (w.setRoom r { w.room r with send := { (w.room r).send with buf := pending } }) r e).state
      rw [h12.2.2.1 r] at h3
      exact Frame.trans h12 h3
    · exact h12

theorem Hub.BroadcastToRoom_frame (w : World) (r : RoomName) (e : Event)
    (ts : List ClientID) : Frame ts w (Hub.BroadcastToRoom w r e).state := by
  unfold Hub.BroadcastToRoom
  simp only
  split
  · split
    · exact Frame.refl _ _
    · split
      · exact World.setRoomSend_frame w r _ ts
      · exact Frame.refl _ _
  · exact Frame.refl _ _

/-! ## Membership symmetry -/

theorem NoMemberships.toSymmetry {w : World} (h : NoMemberships w) : MembershipSymmetry w := by
  intro c r
  rw [h.1 r, h.2 c]
  simp

theorem World.join_symmetry (w : World) (r : RoomName) (c : ClientID)
    (h : MembershipSymmetry w) : MembershipSymmetry (w.join r c) := by
  intro c' r'
  rw [World.join_room_mem, World.join_client_mem, h c' r']

theorem World.leave_symmetry (w : World) (r : RoomName) (c : ClientID)
    (h : MembershipSymmetry w) : MembershipSymmetry (w.leave r c) := by
  intro c' r'
  rw [World.leave_room_mem, World.leave_client_mem, h c' r']

theorem World.leaveAll_symmetry (w : World) (ks : List RoomName) (c : ClientID)
    (h : MembershipSymmetry w) :
    MembershipSymmetry (ks.foldl (fun acc room => acc.leave room c) w) := by
  intro c' r'
  rw [World.leaveAll_room_mem, World.leaveAll_client_mem, h c' r']

theorem World.setClientSend_rooms (w : World) (c : ClientID) (ch : Chan) (c' : ClientID) :
    ((w.setClient c { w.client c with send := ch }).client c').rooms = (w.client c').rooms := by
  by_cases hc : c' = c
  · subst hc
    simp [World.setClient]
  · simp [World.setClient, hc]

theorem Hub.runUnregister_symmetry (w : World) (c : ClientID) (h : MembershipSymmetry w) :
    MembershipSymmetry (Hub.runUnregister w c).state := by
  unfold Hub.runUnregister
  simp only
  split
  · split
    · exact World.leaveAll_symmetry w _ c h
    · intro c' r'
      have h1 := World.leaveAll_symmetry w (w.client c).rooms.keys c h c' r'
      simp only [World.setClientSend_rooms]
      exact h1
  · exact h

theorem Room.runUnregister_keeps_symmetry (w : World) (r : RoomName) (c : ClientID)
    (h : MembershipSymmetry w) : MembershipSymmetry (Room.runUnregister w r c).state := by
  unfold Room.runUnregister
  split
  · exact World.leave_symmetry w r c h
  · exact h

theorem World.step_symmetry (w : World) (q : Request) (h : MembershipSymmetry w) :
    MembershipSymmetry (w.step q).state := by
  cases q with
  | hubRegister c => exact h
  | hubUnregister c => exact Hub.runUnregister_symmetry w c h
  | broadcastToAll e => exact (Hub.runSend_frame w e).keeps_symmetry h
  | roomRegister r c => exact World.join_symmetry w r c h
  | roomUnregister r c => exact Room.runUnregister_keeps_symmetry w r c h
  | roomWork r => exact (Room.work_frame r _ w).keeps_symmetry h
  | subscribe r c =>
    show MembershipSymmetry (Hub.SubscribeToRoom w r c).state
    unfold Hub.SubscribeToRoom
    split
    · exact World.join_symmetry w r c h
    · exact h
  | unsubscribe r c =>
    show MembershipSymmetry (Hub.UnsubscribeFromRoom w r c).state
    unfold Hub.UnsubscribeFromRoom
    split
    · exact Room.runUnregister_keeps_symmetry w r c h
    · exact h
  | broadcastToRoom r e => exact (Hub.BroadcastToRoom_frame w r e []).keeps_symmetry h
  | sendToClient c e => exact (World.chanSend_frame w c e).keeps_symmetry h

theorem World.exec_symmetry (reqs : List Request) (w : World) (h : MembershipSymmetry w) :
    MembershipSymmetry (w.exec reqs).state := by
  induction reqs generalizing w with
  | nil => exact h
  | cons q qs ih =>
    unfold World.exec
    simp only
    split
    · exact ih _ (World.step_symmetry w q h)
    · exact World.step_symmetry w q h

theorem NewHub_noMemberships (hash : String → Nat) (names : List RoomName) (n m : Nat) :
    NoMemberships (NewHub hash names n m) :=
  ⟨fun _ => rfl, fun _ => rfl⟩

/-- C4. Membership symmetry is an invariant of the hub and room steps: from a
state with no memberships, after every finite sequence of processed requests
(hub register and unregister, room register and unregister, also when
deliveries run in between, and in the state a run stops in), for every client
`c` and room `r`, `c` is a member of `r` exactly when `r` is among the room
references of `c`. -/
theorem membership_symmetry_invariant (w0 : World) (h0 : NoMemberships w0)
    (reqs : List Request) (c : ClientID) (r : RoomName) :
    c ∈ ((w0.exec reqs).state.room r).clients.keys ↔
      r ∈ ((w0.exec reqs).state.client c).rooms.keys :=
  World.exec_symmetry reqs w0 h0.toSymmetry c r

/-- C4 on a run of the hub with the room `chat`: two clients register and
subscribe, one unsubscribes, the other is unregistered. -/
theorem membership_symmetry_invariant_witness :
    NoMemberships chatHub ∧
    "b" ∈ ((chatHub.exec [.hubRegister "a", .hubRegister "b", .roomRegister "chat" "a",
        .roomRegister "chat" "b", .roomUnregister "chat" "a", .hubUnregister "a"]).state.room
          "chat").clients.keys ∧
    ("b" ∈ ((chatHub.exec [.hubRegister "a", .hubRegister "b", .roomRegister "chat" "a",
        .roomRegister "chat" "b", .roomUnregister "chat" "a", .hubUnregister "a"]).state.room
          "chat").clients.keys ↔
      "chat" ∈ ((chatHub.exec [.hubRegister "a", .hubRegister "b", .roomRegister "chat" "a",
        .roomRegister "chat" "b", .roomUnregister "chat" "a", .hubUnregister "a"]).state.client
          "b").rooms.keys) :=
  ⟨NewHub_noMemberships _ _ _ _, by decide,
   membership_symmetry_invariant chatHub (NewHub_noMemberships _ _ _ _) _ "b" "chat"⟩

/-! ## Hub unregister -/

/-- C5, as stated, fails in two states that satisfy membership symmetry. A
client subscribed to `chat` while it is not in the registry stays a member of
`chat`, and keeps its room reference, however often its unregister request is
processed: the request is a no-op outside the registry. And for a client that
is in the registry with its channel closed already, the request panics on the
second `close`, with the client still in the registry. -/
theorem Hub_runUnregister_not_always_absent :
    (MembershipSymmetry strayMember ∧
      (Hub.runUnregister strayMember "a").status = .done ∧
      "a" ∈ ((Hub.runUnregister strayMember "a").state.room "chat").clients.keys ∧
      "chat" ∈ ((Hub.runUnregister strayMember "a").state.client "a").rooms.keys) ∧
    (MembershipSymmetry closedRegistered ∧
      (Hub.runUnregister closedRegistered "a").status = .panicked ∧
      "a" ∈ (Hub.runUnregister closedRegistered "a").state.clients.keys) :=
  ⟨⟨World.exec_symmetry _ _ (NewHub_noMemberships _ _ _ _).toSymmetry,
      by decide, by decide, by decide⟩,
   ⟨World.exec_symmetry _ _ (NewHub_noMemberships _ _ _ _).toSymmetry, by decide, by decide⟩⟩

/-- C5, amended. In every state that satisfies membership symmetry, for every
client `c` whose channel is still open if `c` is in the registry, the
unregister request for `c` runs to its end, and processing it a second time
changes nothing: twice yields exactly the state of once. When `c` was in the
registry, in that state `c` is absent from the registry and from every room's
member set, its room-reference set is empty and its channel is closed. When `c`
was not in the registry, the request changes nothing. -/
theorem Hub_runUnregister_idempotent (w : World) (c : ClientID)
    (hs : MembershipSymmetry w)
    (hopen : w.clients.has c = true → (w.client c).send.closed = false) :
    (Hub.runUnregister w c).status = .done ∧
    Hub.runUnregister (Hub.runUnregister w c).state c
      = ⟨(Hub.runUnregister w c).state, .done⟩ ∧
    (w.clients.has c = true →
      c ∉ (Hub.runUnregister w c).state.clients.keys ∧
      (∀ r, c ∉ ((Hub.runUnregister w c).state.room r).clients.keys) ∧
      ((Hub.runUnregister w c).state.client c).rooms.keys = [] ∧
      ((Hub.runUnregister w c).state.client c).send.closed = true) ∧
    (w.clients.has c = false → (Hub.runUnregister w c).state = w) := by
  by_cases hreg : w.clients.has c = true
  · have hcl := hopen hreg
    obtain ⟨g1, _, g3, _⟩ := World.leaveAll_clients c (w.client c).rooms.keys w
    have hcl1 : ((List.foldl (fun acc room => acc.leave room c) w
        (w.client c).rooms.keys).client c).send.closed = false := by
      rw [g3 c]
      exact hcl
    have hst : Hub.runUnregister w c =
        ⟨{ ((List.foldl (fun acc room => acc.leave room c) w
              (w.client c).rooms.keys).setClient c
            { (List.foldl (fun acc room => acc.leave room c) w
                (w.client c).rooms.keys).client c with
              send := { ((List.foldl (fun acc room => acc.leave room c) w
                (w.client c).rooms.keys).client c).send with closed := true } }) with
            clients := w.clients.del c }, .done⟩ := by
      unfold Hub.runUnregister
      simp only [hreg, if_true, hcl1]
      simp [World.setClient, g1]
    have hgone : c ∉ (w.clients.del c).keys := by
      rw [KeySet.mem_del]
      simp
    rw [hst]
    refine ⟨rfl, ?_, ?_, ?_⟩
    · have hno : (w.clients.del c).has c = false := by
        simpa [KeySet.has] using hgone
      unfold Hub.runUnregister
      simp [hno]
    · intro _
      refine ⟨hgone, ?_, ?_, ?_⟩
      · intro r hr
        have hr1 : c ∈ ((List.foldl (fun acc room => acc.leave room c) w
            (w.client c).rooms.keys).room r).clients.keys := hr
        rw [World.leaveAll_room_mem] at hr1
        exact hr1.2 ⟨rfl, (hs c r).1 hr1.1⟩
      · rw [List.eq_nil_iff_forall_not_mem]
        intro r hr
        simp only [World.setClientSend_rooms] at hr
        rw [World.leaveAll_client_mem] at hr
        exact hr.2 ⟨rfl, hr.1⟩
      · simp [World.setClient]
    · intro hno
      rw [hno] at hreg
      exact absurd hreg (by simp)
  · have hno : w.clients.has c = false := by simpa using hreg
    have hst : Hub.runUnregister w c = ⟨w, .done⟩ := by
      unfold Hub.runUnregister
      simp [hno]
    rw [hst]
    refine ⟨rfl, hst, ?_, fun _ => rfl⟩
    intro h
    rw [hno] at h
    exact absurd h (by simp)

/-- C5, amended, on the state in which `a` is registered and a member of
`chat`. -/
theorem Hub_runUnregister_idempotent_witness :
    (registeredMember.clients.has "a" = true ∧
      "a" ∈ (registeredMember.room "chat").clients.keys ∧
      "chat" ∈ (registeredMember.client "a").rooms.keys) ∧
    MembershipSymmetry registeredMember ∧
    (registeredMember.clients.has "a" = true →
      (registeredMember.client "a").send.closed = false) ∧
    ((Hub.runUnregister registeredMember "a").status = .done ∧
      Hub.runUnregister (Hub.runUnregister registeredMember "a").state "a"
        = ⟨(Hub.runUnregister registeredMember "a").state, .done⟩ ∧
      (registeredMember.clients.has "a" = true →
        "a" ∉ (Hub.runUnregister registeredMember "a").state.clients.keys ∧
        (∀ r, "a" ∉ ((Hub.runUnregister registeredMember "a").state.room r).clients.keys) ∧
        ((Hub.runUnregister registeredMember "a").state.client "a").rooms.keys = [] ∧
        ((Hub.runUnregister registeredMember "a").state.client "a").send.closed = true) ∧
      (registeredMember.clients.has "a" = false →
        (Hub.runUnregister registeredMember "a").state = registeredMember)) :=
  ⟨⟨by decide, by decide, by decide⟩,
   World.exec_symmetry _ _ (NewHub_noMemberships _ _ _ _).toSymmetry,
   fun _ => by decide,
   Hub_runUnregister_idempotent registeredMember "a"
     (World.exec_symmetry _ _ (NewHub_noMemberships _ _ _ _).toSymmetry) (fun _ => by decide)⟩

/-! ## Fan-out: what each member receives -/

theorem take_one_append_take (b rest : List Event) (e : Event) (cap : Nat) :
    (b ++ [e].take (cap - b.length)) ++
        rest.take (cap - (b ++ [e].take (cap - b.length)).length)
      = b ++ (e :: rest).take (cap - b.length) := by
  by_cases h : b.length < cap
  · obtain ⟨n, hn⟩ : ∃ n, cap - b.length = n + 1 := ⟨cap - b.length - 1, by omega⟩
    have h2 : cap - (b.length + 1) = n := by omega
    simp [hn, h2]
  · have h0 : cap - b.length = 0 := by omega
    simp [h0]

theorem World.chanTrySend_open (w : World) (c : ClientID) (e : Event)
    (hopen : (w.client c).send.closed = false) :
    (w.chanTrySend c e).status = .done ∧
    ((w.chanTrySend c e).state.client c).send.buf
      = (w.client c).send.buf ++ [e].take ((w.client c).send.cap - (w.client c).send.buf.length) := by
  unfold World.chanTrySend
  simp only [hopen]
  by_cases h : (w.client c).send.buf.length < (w.client c).send.cap
  · obtain ⟨n, hn⟩ : ∃ n, (w.client c).send.cap - (w.client c).send.buf.length = n + 1 :=
      ⟨(w.client c).send.cap - (w.client c).send.buf.length - 1, by omega⟩
    simp [h, hn, World.setClient]
  · have h0 : (w.client c).send.cap - (w.client c).send.buf.length = 0 := by omega
    simp [h, h0]

theorem World.forEach_trySend (e : Event) (ks : List ClientID) (w : World)
    (hnd : ks.Nodup) (hopen : ∀ k ∈ ks, (w.client k).send.closed = false) :
    (World.forEach (fun acc client => acc.chanTrySend client e) ks w).status = .done ∧
    ∀ c ∈ ks,
      ((World.forEach (fun acc client => acc.chanTrySend client e) ks w).state.client c).send.buf
        = (w.client c).send.buf ++
            [e].take ((w.client c).send.cap - (w.client c).send.buf.length) := by
  induction ks generalizing w with
  | nil => exact ⟨rfl, fun c hc => absurd hc (List.not_mem_nil c)⟩
  | cons k ks ih =>
    obtain ⟨hk, hks⟩ := List.nodup_cons.mp hnd
    obtain ⟨hdone, hbuf⟩ := World.chanTrySend_open w k e (hopen k (List.mem_cons_self _ _))
    have hfr := World.chanTrySend_frame w k e
    have hopen1 : ∀ j ∈ ks, ((w.chanTrySend k e).state.client j).send.closed = false := by
      intro j hj
      rw [(hfr.2.2.2.2.1 j).2]
      exact hopen j (List.mem_cons_of_mem _ hj)
    obtain ⟨ihd, ihb⟩ := ih (w.chanTrySend k e).state hks hopen1
    have hrest := World.forEach_frame (fun acc client => acc.chanTrySend client e)
      (fun w k => World.chanTrySend_frame w k e) ks (w.chanTrySend k e).state
    unfold World.forEach
    simp only [hdone, if_true]
    refine ⟨ihd, ?_⟩
    intro c hc
    rcases List.mem_cons.mp hc with hck | hcs
    · subst hck
      rw [hrest.2.2.2.2.2 c hk, hbuf]
    · have hne : c ∉ [k] := by
        rw [List.mem_singleton]
        intro hck
        exact hk (hck ▸ hcs)
      rw [ihb c hcs, hfr.2.2.2.2.2 c hne]

theorem Room.work_delivers (r : RoomName) (pending : List Event) (w : World)
    (hopen : ∀ d ∈ (w.room r).clients.keys, (w.client d).send.closed = false) :
    (Room.work r pending w).status = .done ∧
    ∀ d ∈ (w.room r).clients.keys,
      ((Room.work r pending w).state.client d).send.buf
        = (w.client d).send.buf ++
            pending.take ((w.client d).send.cap - (w.client d).send.buf.length) := by
  induction pending generalizing w with
  | nil => exact ⟨rfl, fun d _ => by simp [Room.work]⟩
  | cons e pending ih =>
    have h1 := World.setRoomSend_frame w r { (w.room r).send with buf := pending }
      (w.room r).clients.keys
    have hk1 := congrArg KeySet.keys (h1.2.2.1 r)
    have hopen1 : ∀ d ∈ ((w.setRoom r { w.room r with send :=
          { (w.room r).send with buf := pending } }).room r).clients.keys,
        ((w.setRoom r { w.room r with send :=
          { (w.room r).send with buf := pending } }).client d).send.closed = false := by
      intro d hd
      rw [hk1] at hd
      exact hopen d hd
    obtain ⟨fd, fb⟩ := World.forEach_trySend e _ _
      ((w.setRoom r { w.room r with send :=
          { (w.room r).send with buf := pending } }).room r).clients.nodup hopen1
    have h2 := Room.fanOut_frame
      (w.setRoom r { w.room r with send := { (w.room r).send with buf := pending } }) r e
    have hk2 := congrArg KeySet.keys (h2.2.2.1 r)
    have hopen2 : ∀ d ∈ ((Room.fanOut (w.setRoom r { w.room r with send :=
          { (w.room r).send with buf := pending } }) r e).state.room r).clients.keys,
        ((Room.fanOut (w.setRoom r { w.room r with send :=
          { (w.room r).send with buf := pending } }) r e).state.client d).send.closed
          = false := by
      intro d hd
      rw [hk2] at hd
      rw [(h2.2.2.2.2.1 d).2]
      exact hopen1 d hd
    obtain ⟨ihd, ihb⟩ := ih _ hopen2
    unfold Room.work
    simp only
    have fd1 : (Room.fanOut (w.setRoom r { w.room r with send :=
        { (w.room r).send with buf := pending } }) r e).status = .done := fd
    simp only [fd1, if_true]
    refine ⟨ihd, ?_⟩
    intro d hd
    have hd1 : d ∈ ((w.setRoom r { w.room r with send :=
        { (w.room r).send with buf := pending } }).room r).clients.keys := by
      rw [hk1]
      exact hd
    have hd2 : d ∈ ((Room.fanOut (w.setRoom r { w.room r with send :=
        { (w.room r).send with buf := pending } }) r e).state.room r).clients.keys := by
      rw [hk2]
      exact hd1
    have fb1 : ((Room.fanOut (w.setRoom r { w.room r with send :=
        { (w.room r).send with buf := pending } }) r e).state.client d).send.buf
        = (w.client d).send.buf ++
            [e].take ((w.client d).send.cap - (w.client d).send.buf.length) := fb d hd1
    rw [ihb d hd2, (h2.2.2.2.2.1 d).1, fb1]
    exact take_one_append_take _ _ _ _

/-- Room fan-out backpressure, one worker: in a room whose members have
open channels, let `c` be a member whose channel has capacity `k` and is empty,
with nobody receiving from it, and let the room's channel hold the events
`e1..e(k+1)` (or more) in publish order. The worker fans them all out without
stopping; afterwards the channel of `c` holds exactly `e1..ek` in that order,
so `e(k+1)` and every later event is dropped for `c`; and every member whose
channel has room for all the events holds them all, in publish order, after
what it held before. -/
theorem Room_fanOut_backpressure (w : World) (room : RoomName) (c : ClientID) (k : Nat)
    (events : List Event)
    (hmem : c ∈ (w.room room).clients.keys)
    (hopen : ∀ d ∈ (w.room room).clients.keys, (w.client d).send.closed = false)
    (hcap : (w.client c).send.cap = k) (hempty : (w.client c).send.buf = [])
    (hpub : (w.room room).send.buf = events) (hlen : k + 1 ≤ events.length) :
    (Room.consumeBroadcastedMessage w room).status = .done ∧
    ((Room.consumeBroadcastedMessage w room).state.client c).send.buf = events.take k ∧
    (events.take k).length = k ∧
    ∀ d ∈ (w.room room).clients.keys,
      (w.client d).send.buf.length + events.length ≤ (w.client d).send.cap →
      ((Room.consumeBroadcastedMessage w room).state.client d).send.buf
        = (w.client d).send.buf ++ events := by
  obtain ⟨hd, hb⟩ := Room.work_delivers room events w hopen
  unfold Room.consumeBroadcastedMessage
  rw [hpub]
  refine ⟨hd, ?_, ?_, ?_⟩
  · rw [hb c hmem, hempty, hcap]
    simp
  · rw [List.length_take]
    omega
  · intro d hdm hroom
    rw [hb d hdm, List.take_of_length_le (by omega)]

/-- Backpressure on the room `chat` with the members `a` (capacity 2) and `b` (capacity
8) and three published events: `a` holds the first two, `b` all three. -/
theorem Room_fanOut_backpressure_witness :
    ("a" ∈ (backpressureHub.room "chat").clients.keys ∧
      "b" ∈ (backpressureHub.room "chat").clients.keys ∧
      (backpressureHub.client "a").send.cap = 2 ∧
      (backpressureHub.room "chat").send.buf = [chatEvent 1, chatEvent 2, chatEvent 3]) ∧
    ((Room.consumeBroadcastedMessage backpressureHub "chat").status = .done ∧
      ((Room.consumeBroadcastedMessage backpressureHub "chat").state.client "a").send.buf
        = [chatEvent 1, chatEvent 2, chatEvent 3].take 2 ∧
      ([chatEvent 1, chatEvent 2, chatEvent 3].take 2).length = 2 ∧
      ∀ d ∈ (backpressureHub.room "chat").clients.keys,
        (backpressureHub.client d).send.buf.length + [chatEvent 1, chatEvent 2, chatEvent 3].length
          ≤ (backpressureHub.client d).send.cap →
        ((Room.consumeBroadcastedMessage backpressureHub "chat").state.client d).send.buf
          = (backpressureHub.client d).send.buf ++ [chatEvent 1, chatEvent 2, chatEvent 3]) :=
  ⟨⟨by decide, by decide, rfl, rfl⟩,
   Room_fanOut_backpressure backpressureHub "chat" "a" 2 [chatEvent 1, chatEvent 2, chatEvent 3]
     (by decide) (by decide) rfl rfl rfl (by decide)⟩

/-! ## Fan-out into a closed channel -/

/-- A fan-out panics when a member's channel is closed, in whatever order the
members are visited. -/
theorem World.forEach_trySend_panics (e : Event) (d : ClientID) (ks : List ClientID)
    (w : World) (hd : d ∈ ks) (hclosed : (w.client d).send.closed = true) :
    (World.forEach (fun acc client => acc.chanTrySend client e) ks w).status = .panicked := by
  induction ks generalizing w with
  | nil => exact absurd hd (List.not_mem_nil d)
  | cons k ks ih =>
    unfold World.forEach
    simp only
    by_cases hk : (w.client k).send.closed = true
    · have hst : w.chanTrySend k e = ⟨w, .panicked⟩ := by
        unfold World.chanTrySend
        simp [hk]
      simp [hst]
    · have hko : (w.client k).send.closed = false := by simpa using hk
      have hst : (w.chanTrySend k e).status = .done :=
        (World.chanTrySend_open w k e hko).1
      have hne : d ≠ k := by
        rintro rfl
        exact hk hclosed
      have hds : d ∈ ks := by
        rcases List.mem_cons.mp hd with h | h
        · exact absurd h hne
        · exact h
      have hfr := World.chanTrySend_frame w k e
      have hcl1 : ((w.chanTrySend k e).state.client d).send.closed = true := by
        rw [(hfr.2.2.2.2.1 d).2]
        exact hclosed
      simp only [hst, if_true]
      exact ih _ hds hcl1

/-- One fan-out adds at most one event to a channel, however it stops. -/
theorem World.forEach_trySend_length (e : Event) (ks : List ClientID) (w : World)
    (hnd : ks.Nodup) (c : ClientID) :
    ((World.forEach (fun acc client => acc.chanTrySend client e) ks w).state.client c).send.buf.length
      ≤ (w.client c).send.buf.length + 1 := by
  induction ks generalizing w with
  | nil => simp [World.forEach]
  | cons k ks ih =>
    obtain ⟨hk, hks⟩ := List.nodup_cons.mp hnd
    have hone : ((w.chanTrySend k e).state.client c).send.buf.length
        ≤ (w.client c).send.buf.length + 1 := by
      unfold World.chanTrySend
      simp only
      split
      · exact Nat.le_succ _
      · split
        · by_cases hck : c = k
          · subst hck
            simp [World.setClient]
          · simp [World.setClient, hck]
        · exact Nat.le_succ _
    unfold World.forEach
    simp only
    split
    · by_cases hck : c = k
      · subst hck
        have hrest := World.forEach_frame (fun acc client => acc.chanTrySend client e)
          (fun w k => World.chanTrySend_frame w k e) ks (w.chanTrySend c e).state
        rw [hrest.2.2.2.2.2 c hk]
        exact hone
      · have hfr := World.chanTrySend_frame w k e
        have hsame : (w.chanTrySend k e).state.client c = w.client c :=
          hfr.2.2.2.2.2 c (by simpa using hck)
        have := ih (w.chanTrySend k e).state hks
        rw [hsame] at this
        exact this
    · exact hone

/-- The worker panics on the first event it fans out into a room with a
closed member, and no channel has grown by more than that one event. -/
theorem Room.work_closed_member (r : RoomName) (e : Event) (pending : List Event) (w : World)
    (d : ClientID) (hd : d ∈ (w.room r).clients.keys)
    (hclosed : (w.client d).send.closed = true) :
    (Room.work r (e :: pending) w).status = .panicked ∧
    ∀ c, ((Room.work r (e :: pending) w).state.client c).send.buf.length
      ≤ (w.client c).send.buf.length + 1 := by
  have h1 := World.setRoomSend_frame w r { (w.room r).send with buf := pending }
    (w.room r).clients.keys
  have hk1 := congrArg KeySet.keys (h1.2.2.1 r)
  have hd1 : d ∈ ((w.setRoom r { w.room r with send :=
      { (w.room r).send with buf := pending } }).room r).clients.keys := by
    rw [hk1]
    exact hd
  have hp : (Room.fanOut (w.setRoom r { w.room r with send :=
      { (w.room r).send with buf := pending } }) r e).status = .panicked :=
    World.forEach_trySend_panics e d _ _ hd1 hclosed
  have hl : ∀ c, ((Room.fanOut (w.setRoom r { w.room r with send :=
      { (w.room r).send with buf := pending } }) r e).state.client c).send.buf.length
      ≤ (w.client c).send.buf.length + 1 := fun c =>
    World.forEach_trySend_length e _ _
      ((w.setRoom r { w.room r with send :=
        { (w.room r).send with buf := pending } }).room r).clients.nodup c
  unfold Room.work
  simp only
  rw [if_neg (by rw [hp]; decide)]
  exact ⟨hp, hl⟩

/-- C8 in a room with a closed member. In the example state the room `chat`
has the members `a` (open empty channel of capacity 2, nobody receiving) and
`b` (channel closed by the hub's unregistration, subscribed after that), and
three events are published: the worker panics on the first send to `b`, and
`a` holds at most one event, not the first two. In every state, a worker that
fans out into a room with a closed member panics on the first event, in
whatever order the members are visited, and no channel grows by more than one
event. In every room whose members all have open channels the claim holds:
the worker runs to its end, a member with an empty channel of capacity `k`
holds exactly the first `k` of `k + 1` or more events, in order, and a member
with room for all events holds them all, in order. -/
theorem Room_fanOut_closed_member :
    ("a" ∈ (closedMemberHub.room "chat").clients.keys ∧
      "b" ∈ (closedMemberHub.room "chat").clients.keys ∧
      (closedMemberHub.client "a").send.cap = 2 ∧
      (closedMemberHub.client "a").send.buf = [] ∧
      (closedMemberHub.client "a").send.closed = false ∧
      (closedMemberHub.client "b").send.closed = true ∧
      (closedMemberHub.room "chat").send.buf = [chatEvent 1, chatEvent 2, chatEvent 3]) ∧
    ((Room.consumeBroadcastedMessage closedMemberHub "chat").status = .panicked ∧
      ((Room.consumeBroadcastedMessage closedMemberHub "chat").state.client "a").send.buf.length
        ≤ 1) ∧
    (∀ (w : World) (r : RoomName) (e : Event) (pending : List Event) (d : ClientID),
      d ∈ (w.room r).clients.keys → (w.client d).send.closed = true →
      (Room.work r (e :: pending) w).status = .panicked ∧
      ∀ c, ((Room.work r (e :: pending) w).state.client c).send.buf.length
        ≤ (w.client c).send.buf.length + 1) ∧
    (∀ (w : World) (room : RoomName) (c : ClientID) (k : Nat) (events : List Event),
      c ∈ (w.room room).clients.keys →
      (∀ d ∈ (w.room room).clients.keys, (w.client d).send.closed = false) →
      (w.client c).send.cap = k → (w.client c).send.buf = [] →
      (w.room room).send.buf = events → k + 1 ≤ events.length →
      (Room.consumeBroadcastedMessage w room).status = .done ∧
      ((Room.consumeBroadcastedMessage w room).state.client c).send.buf = events.take k ∧
      (events.take k).length = k ∧
      ∀ d ∈ (w.room room).clients.keys,
        (w.client d).send.buf.length + events.length ≤ (w.client d).send.cap →
        ((Room.consumeBroadcastedMessage w room).state.client d).send.buf
          = (w.client d).send.buf ++ events) := by
  refine ⟨⟨by decide, by decide, rfl, rfl, rfl, rfl, rfl⟩, ?_, ?_, ?_⟩
  · have h := Room.work_closed_member "chat" (chatEvent 1) [chatEvent 2, chatEvent 3]
      closedMemberHub "b" (by decide) rfl
    exact ⟨h.1, h.2 "a"⟩
  · intro w r e pending d hd hclosed
    exact Room.work_closed_member r e pending w d hd hclosed
  · intro w room c k events hmem hopen hcap hempty hpub hlen
    exact Room_fanOut_backpressure w room c k events hmem hopen hcap hempty hpub hlen

/-! ## Deliveries and the rooms' channels -/

theorem RoomFrame.same (n : RoomName) (w : World) : RoomFrame n w w :=
  ⟨fun _ _ => rfl, rfl, rfl⟩

theorem RoomFrame.chain {n : RoomName} {w1 w2 w3 : World}
    (h : RoomFrame n w1 w2) (g : RoomFrame n w2 w3) : RoomFrame n w1 w3 :=
  ⟨fun r hr => (g.1 r hr).trans (h.1 r hr), g.2.1.trans h.2.1, g.2.2.trans h.2.2⟩

theorem World.chanSend_room (w : World) (c : ClientID) (e : Event) :
    (w.chanSend c e).state.room = w.room := by
  unfold World.chanSend
  simp only
  split
  · rfl
  · split <;> rfl

theorem World.chanTrySend_room (w : World) (c : ClientID) (e : Event) :
    (w.chanTrySend c e).state.room = w.room := by
  unfold World.chanTrySend
  simp only
  split
  · rfl
  · split <;> rfl

theorem World.forEach_room (body : World → ClientID → Outcome)
    (hbody : ∀ w k, (body w k).state.room = w.room) (ks : List ClientID) (w : World) :
    (World.forEach body ks w).state.room = w.room := by
  induction ks generalizing w with
  | nil => rfl
  | cons k ks ih =>
    unfold World.forEach
    simp only
    split
    · rw [ih, hbody]
    · exact hbody w k

theorem Room.fanOut_room (w : World) (r : RoomName) (e : Event) :
    (Room.fanOut w r e).state.room = w.room :=
  World.forEach_room _ (fun w k => World.chanTrySend_room w k e) _ _

theorem World.setRoomBuf_roomFrame (w : World) (n : RoomName) (buf : List Event) :
    RoomFrame n w (w.setRoom n { w.room n with send := { (w.room n).send with buf := buf } }) := by
  refine ⟨?_, ?_, ?_⟩
  · intro r hr
    simp [World.setRoom, hr]
  · simp [World.setRoom]
  · simp [World.setRoom]

theorem Room.work_roomFrame (n : RoomName) (pending : List Event) (w : World) :
    RoomFrame n w (Room.work n pending w).state := by
  induction pending generalizing w with
  | nil => exact RoomFrame.same _ _
  | cons e pending ih =>
    unfold Room.work
    simp only
    have h1 := World.setRoomBuf_roomFrame w n pending
    have h2 : RoomFrame n w (Room.fanOut
        (w.setRoom n { w.room n with send := { (w.room n).send with buf := pending } })
        n e).state := by
      unfold RoomFrame
      rw [Room.fanOut_room]
      exact h1
    split
    · exact RoomFrame.chain h2 (ih _)
    · exact h2

/-- A worker that runs to its end leaves the room's channel empty. -/
theorem Room.work_empties (n : RoomName) (pending : List Event) (w : World)
    (hbuf : (w.room n).send.buf = pending)
    (hdone : (Room.work n pending w).status = .done) :
    ((Room.work n pending w).state.room n).send.buf = [] := by
  induction pending generalizing w with
  | nil => exact hbuf
  | cons e pending ih =>
    unfold Room.work at hdone ⊢
    simp only at hdone ⊢
    by_cases hs : (Room.fanOut
        (w.setRoom n { w.room n with send := { (w.room n).send with buf := pending } })
        n e).status = .done
    · simp only [hs, if_true] at hdone ⊢
      refine ih _ ?_ hdone
      rw [Room.fanOut_room]
      simp [World.setRoom]
    · rw [if_neg hs] at hdone
      exact absurd hdone hs

theorem Hub.BroadcastToRoom_roomFrame (w : World) (n : RoomName) (e : Event) :
    RoomFrame n w (Hub.BroadcastToRoom w n e).state := by
  unfold Hub.BroadcastToRoom
  simp only
  split
  · split
    · exact RoomFrame.same _ _
    · split
      · exact World.setRoomBuf_roomFrame w n _
      · exact RoomFrame.same _ _
  · exact RoomFrame.same _ _

theorem publishToRoom_roomFrame (w : World) (n : RoomName) (e : Event) :
    RoomFrame n w (publishToRoom w n e).state := by
  unfold publishToRoom
  simp only
  split
  · exact RoomFrame.chain (Hub.BroadcastToRoom_roomFrame w n e) (Room.work_roomFrame n _ _)
  · exact Hub.BroadcastToRoom_roomFrame w n e

/-! ## Delivery scope of a room publish -/

/-- C9. Delivery scope of a room publish: for every state, room name `n` and
event, `BroadcastToRoom(n, event)` followed by that room's fan-out leaves the
client registry, the room registry, every member set and every room-reference
set as they were, leaves every client that is not a member of room `n`
untouched, its channel included (a member's channel keeps its capacity and
closed flag), and leaves every room other than `n` untouched, its publish channel included, so no other room has anything to fan
out; the publish channel of room `n` keeps its capacity and closed flag. When
no room named `n` exists the state does not change at all. When the room
exists with an open empty channel of positive size and its members have open
channels, the run reaches its end, the room's channel is empty again, and each
member holds the event after what it held before, or holds what it held
before when its channel was full. -/
theorem publishToRoom_scope (w : World) (n : RoomName) (event : Event) :
    (publishToRoom w n event).state.clients = w.clients ∧
    (publishToRoom w n event).state.rooms = w.rooms ∧
    (∀ r, ((publishToRoom w n event).state.room r).clients = (w.room r).clients) ∧
    (∀ c, ((publishToRoom w n event).state.client c).rooms = (w.client c).rooms) ∧
    (∀ c, c ∉ (w.room n).clients.keys → (publishToRoom w n event).state.client c = w.client c) ∧
    (∀ c, ((publishToRoom w n event).state.client c).send.cap = (w.client c).send.cap ∧
      ((publishToRoom w n event).state.client c).send.closed = (w.client c).send.closed) ∧
    (∀ r, r ≠ n → (publishToRoom w n event).state.room r = w.room r) ∧
    ((publishToRoom w n event).state.room n).send.cap = (w.room n).send.cap ∧
    ((publishToRoom w n event).state.room n).send.closed = (w.room n).send.closed ∧
    (w.rooms.has n = false → publishToRoom w n event = ⟨w, .done⟩) ∧
    (w.rooms.has n = true → (w.room n).send.closed = false → (w.room n).send.buf = [] →
      0 < (w.room n).send.cap →
      (∀ d ∈ (w.room n).clients.keys, (w.client d).send.closed = false) →
      (publishToRoom w n event).status = .done ∧
      ((publishToRoom w n event).state.room n).send.buf = [] ∧
      ∀ d ∈ (w.room n).clients.keys,
        ((publishToRoom w n event).state.client d).send.buf
          = if (w.client d).send.buf.length < (w.client d).send.cap
            then (w.client d).send.buf ++ [event] else (w.client d).send.buf) := by
  have hfr : Frame (w.room n).clients.keys w (publishToRoom w n event).state := by
    have h1 := Hub.BroadcastToRoom_frame w n event (w.room n).clients.keys
    unfold publishToRoom
    simp only
    split
    · have h2 := Room.work_frame n ((Hub.BroadcastToRoom w n event).state.room n).send.buf
        (Hub.BroadcastToRoom w n event).state
      rw [h1.2.2.1 n] at h2
      exact Frame.trans h1 h2
    · exact h1
  obtain ⟨f1, f2, f3, f4, f5, f6⟩ := hfr
  obtain ⟨g1, g2, g3⟩ := publishToRoom_roomFrame w n event
  refine ⟨f1, f2, f3, f4, f6, f5, g1, g2, g3, ?_, ?_⟩
  · intro hno
    simp [publishToRoom, Hub.BroadcastToRoom, hno]
  · intro hyes hcl hbuf hcap hopen
    have hb : Hub.BroadcastToRoom w n event =
        ⟨w.setRoom n { w.room n with send := { (w.room n).send with buf := [event] } },
          .done⟩ := by
      unfold Hub.BroadcastToRoom
      simp [hyes, hcl, hbuf, hcap]
    have h1 := World.setRoomSend_frame w n { (w.room n).send with buf := [event] }
      (w.room n).clients.keys
    have hk1 := congrArg KeySet.keys (h1.2.2.1 n)
    have hopen1 : ∀ d ∈ ((w.setRoom n { w.room n with send :=
          { (w.room n).send with buf := [event] } }).room n).clients.keys,
        ((w.setRoom n { w.room n with send :=
          { (w.room n).send with buf := [event] } }).client d).send.closed = false := by
      intro d hd
      rw [hk1] at hd
      exact hopen d hd
    obtain ⟨wd, wb⟩ := Room.work_delivers n [event] _ hopen1
    have hp : publishToRoom w n event =
        Room.work n [event]
          (w.setRoom n { w.room n with send := { (w.room n).send with buf := [event] } }) := by
      unfold publishToRoom
      simp only [hb, hyes, and_self, if_true]
      unfold Room.consumeBroadcastedMessage
      simp [World.setRoom]
    rw [hp]
    refine ⟨wd, Room.work_empties n [event] _ (by simp [World.setRoom]) wd, ?_⟩
    intro d hd
    have hd1 : d ∈ ((w.setRoom n { w.room n with send :=
        { (w.room n).send with buf := [event] } }).room n).clients.keys := by
      rw [hk1]
      exact hd
    rw [wb d hd1]
    show (w.client d).send.buf ++ [event].take ((w.client d).send.cap - (w.client d).send.buf.length)
      = _
    by_cases h : (w.client d).send.buf.length < (w.client d).send.cap
    · obtain ⟨m, hm⟩ : ∃ m, (w.client d).send.cap - (w.client d).send.buf.length = m + 1 :=
        ⟨(w.client d).send.cap - (w.client d).send.buf.length - 1, by omega⟩
      simp [h, hm]
    · have h0 : (w.client d).send.cap - (w.client d).send.buf.length = 0 := by omega
      simp [h, h0]

/-! ## Sends to closed and to full channels -/

/-- C6 at concrete runs of the hub with the room `chat`. After the client `a`
is registered and unregistered its channel is closed; `SendToClient` for `a`
then panics on the send. A subscribe request for `a` after that makes `a` a
member of `chat` again, with its channel closed and outside the registry, and
the next event fanned out to `chat` panics on the send to `a`. -/
theorem send_to_closed_channel :
    ((chatHub.exec [.hubRegister "a", .hubUnregister "a"]).status = .done ∧
      ((chatHub.exec [.hubRegister "a", .hubUnregister "a"]).state.client "a").send.closed
        = true) ∧
    (chatHub.exec [.hubRegister "a", .hubUnregister "a",
      .sendToClient "a" (chatEvent 1)]).status = .panicked ∧
    ((chatHub.exec [.hubRegister "a", .hubUnregister "a", .subscribe "chat" "a"]).status
        = .done ∧
      "a" ∈ ((chatHub.exec [.hubRegister "a", .hubUnregister "a",
        .subscribe "chat" "a"]).state.room "chat").clients.keys ∧
      "a" ∉ (chatHub.exec [.hubRegister "a", .hubUnregister "a",
        .subscribe "chat" "a"]).state.clients.keys ∧
      ((chatHub.exec [.hubRegister "a", .hubUnregister "a",
        .subscribe "chat" "a"]).state.client "a").send.closed = true) ∧
    (chatHub.exec [.hubRegister "a", .hubUnregister "a", .subscribe "chat" "a",
      .broadcastToRoom "chat" (chatEvent 1), .roomWork "chat"]).status = .panicked := by
  refine ⟨⟨?_, ?_⟩, ?_, ⟨?_, ?_, ?_, ?_⟩, ?_⟩ <;> decide

/-- A broadcast to all over open channels stops blocked as soon as one
registered client has a full channel, in whatever order the registry is
visited, and leaves that client's channel as it was. -/
theorem World.forEach_send_blocked (e : Event) (c : ClientID) (ks : List ClientID) (w : World)
    (hc : c ∈ ks) (hfull : ¬ (w.client c).send.buf.length < (w.client c).send.cap)
    (hopen : ∀ k ∈ ks, (w.client k).send.closed = false) :
    (World.forEach (fun acc client => acc.chanSend client e) ks w).status = .blocked ∧
    (World.forEach (fun acc client => acc.chanSend client e) ks w).state.client c
      = w.client c := by
  induction ks generalizing w with
  | nil => exact absurd hc (List.not_mem_nil c)
  | cons k ks ih =>
    have hko := hopen k (List.mem_cons_self _ _)
    unfold World.forEach
    simp only
    by_cases hk : (w.client k).send.buf.length < (w.client k).send.cap
    · have hne : c ≠ k := by
        rintro rfl
        exact hfull hk
      have hcs : c ∈ ks := by
        rcases List.mem_cons.mp hc with h | h
        · exact absurd h hne
        · exact h
      have hfr := World.chanSend_frame w k e
      have hst : (w.chanSend k e).status = .done := by
        unfold World.chanSend
        simp [hko, hk]
      have hcsame : (w.chanSend k e).state.client c = w.client c :=
        hfr.2.2.2.2.2 c (by simpa using hne)
      have hfull1 : ¬ ((w.chanSend k e).state.client c).send.buf.length
          < ((w.chanSend k e).state.client c).send.cap := by
        rw [hcsame]
        exact hfull
      have hopen1 : ∀ j ∈ ks, ((w.chanSend k e).state.client j).send.closed = false := by
        intro j hj
        rw [(hfr.2.2.2.2.1 j).2]
        exact hopen j (List.mem_cons_of_mem _ hj)
      obtain ⟨i1, i2⟩ := ih (w.chanSend k e).state hcs hfull1 hopen1
      simp only [hst, if_true]
      exact ⟨i1, i2.trans hcsame⟩
    · have hst : w.chanSend k e = ⟨w, .blocked⟩ := by
        unfold World.chanSend
        simp [hko, hk]
      simp [hst]

/-- C7. The hub's broadcast-to-all step and `SendToClient` are blocking sends.
In the example state `a` and `b` are registered members of `chat`, the channel
of `a` is full and open and the channel of `b` is empty: the broadcast and
`SendToClient` for `a` both stop blocked with the channel of `a` as it was,
and with the keys visited the other way round the broadcast has reached `b`
and is blocked all the same. In every state and for every visiting order, a
broadcast to all over open channels is blocked when a registered client has a
full channel, and `SendToClient` to an open full channel is blocked and
changes nothing. The room fan-out of the same event runs to its end, leaves the
channel of `a` as it was and delivers to `b`; and in every state a room fan-out
over open channels runs to its end, each member holding the event after what
it held, or what it held when its channel was full. -/
theorem blocking_sends_on_full_channel :
    ((fullQueueHub.client "a").send.buf = [chatEvent 1, chatEvent 2] ∧
      (fullQueueHub.client "a").send.cap = 2 ∧
      (fullQueueHub.client "a").send.closed = false ∧
      "a" ∈ fullQueueHub.clients.keys ∧ "b" ∈ fullQueueHub.clients.keys) ∧
    ((Hub.runSend fullQueueHub (chatEvent 3)).status = .blocked ∧
      ((Hub.runSend fullQueueHub (chatEvent 3)).state.client "a").send.buf
        = [chatEvent 1, chatEvent 2]) ∧
    ((Hub.runSend fullQueueHubReversed (chatEvent 3)).status = .blocked ∧
      ((Hub.runSend fullQueueHubReversed (chatEvent 3)).state.client "a").send.buf
        = [chatEvent 1, chatEvent 2] ∧
      ((Hub.runSend fullQueueHubReversed (chatEvent 3)).state.client "b").send.buf
        = [chatEvent 3]) ∧
    (Hub.SendToClient fullQueueHub "a" (chatEvent 3)).status = .blocked ∧
    (∀ (w : World) (c : ClientID) (e : Event),
      c ∈ w.clients.keys →
      ¬ (w.client c).send.buf.length < (w.client c).send.cap →
      (∀ k ∈ w.clients.keys, (w.client k).send.closed = false) →
      (Hub.runSend w e).status = .blocked ∧
      (Hub.runSend w e).state.client c = w.client c) ∧
    (∀ (w : World) (c : ClientID) (e : Event),
      (w.client c).send.closed = false →
      ¬ (w.client c).send.buf.length < (w.client c).send.cap →
      Hub.SendToClient w c e = ⟨w, .blocked⟩) ∧
    ((Room.fanOut fullQueueHub "chat" (chatEvent 3)).status = .done ∧
      ((Room.fanOut fullQueueHub "chat" (chatEvent 3)).state.client "a").send.buf
        = [chatEvent 1, chatEvent 2] ∧
      ((Room.fanOut fullQueueHub "chat" (chatEvent 3)).state.client "b").send.buf
        = [chatEvent 3]) ∧
    (∀ (w : World) (r : RoomName) (e : Event),
      (∀ d ∈ (w.room r).clients.keys, (w.client d).send.closed = false) →
      (Room.fanOut w r e).status = .done ∧
      ∀ d ∈ (w.room r).clients.keys,
        ((Room.fanOut w r e).state.client d).send.buf
          = if (w.client d).send.buf.length < (w.client d).send.cap
            then (w.client d).send.buf ++ [e] else (w.client d).send.buf) := by
  refine ⟨⟨rfl, rfl, rfl, by decide, by decide⟩, ⟨by decide, rfl⟩, ⟨by decide, rfl, rfl⟩,
    by decide, ?_, ?_, ⟨by decide, rfl, rfl⟩, ?_⟩
  · intro w c e hc hfull hopen
    exact World.forEach_send_blocked e c w.clients.keys w hc hfull hopen
  · intro w c e hopen hfull
    unfold Hub.SendToClient World.chanSend
    simp [hopen, hfull]
  intro w r e hopen
  obtain ⟨hd, hb⟩ := World.forEach_trySend e (w.room r).clients.keys w
    (w.room r).clients.nodup hopen
  refine ⟨hd, ?_⟩
  intro d hdm
  have hbd : ((Room.fanOut w r e).state.client d).send.buf
      = (w.client d).send.buf ++
          [e].take ((w.client d).send.cap - (w.client d).send.buf.length) := hb d hdm
  rw [hbd]
  by_cases h : (w.client d).send.buf.length < (w.client d).send.cap
  · obtain ⟨m, hm⟩ : ∃ m, (w.client d).send.cap - (w.client d).send.buf.length = m + 1 :=
      ⟨(w.client d).send.cap - (w.client d).send.buf.length - 1, by omega⟩
    simp [h, hm]
  · have h0 : (w.client d).send.cap - (w.client d).send.buf.length = 0 := by omega
    simp [h, h0]

/-! ## The writer loop -/

/-- The calls already made stay in front of the calls of the rest of the loop,
and a loop that returned made a last call: a close frame, or a write that
failed. -/
theorem Client.writeLoop_returned (client : ClientID) (schedule : List Select) (w : World)
    (calls : List WriteCall)
    (h : (Client.writeLoop client schedule w calls).returned = true) :
    ∃ last, (Client.writeLoop client schedule w calls).calls.getLast? = some last ∧
      (last.messageType = .close ∨ last.err = true) := by
  induction schedule generalizing w calls with
  | nil => simp [Client.writeLoop] at h
  | cons choice rest ih =>
    cases choice with
    | ticker writeErr =>
      unfold Client.writeLoop at h ⊢
      simp only at h ⊢
      by_cases he : writeErr = true
      · simp only [he, if_true] at h ⊢
        exact ⟨⟨.ping, none, true⟩, by simp, Or.inr rfl⟩
      · simp only [he] at h ⊢
        exact ih _ _ h
    | send writeErr =>
      unfold Client.writeLoop at h ⊢
      simp only at h ⊢
      cases hb : (w.client client).send.buf with
      | nil =>
        simp only [hb] at h ⊢
        by_cases hc : (w.client client).send.closed = true
        · simp only [hc, if_true] at h ⊢
          exact ⟨⟨.close, none, writeErr⟩, by simp, Or.inl rfl⟩
        · simp only [hc] at h ⊢
          exact ih _ _ h
      | cons event pending =>
        simp only [hb] at h ⊢
        cases hr : event.Raw with
        | error e =>
          simp only [hr] at h ⊢
          exact ih _ _ h
        | ok message =>
          simp only [hr] at h ⊢
          by_cases he : writeErr = true
          · simp only [he, if_true] at h ⊢
            exact ⟨⟨.text, some message, true⟩, by simp, Or.inr rfl⟩
          · simp only [he] at h ⊢
            exact ih _ _ h

/-- C11, as stated, fails: for the client `a` whose channel the hub has closed
(empty, and `a` out of the registry), `writeMessage` calls `WriteMessage` with
the close frame, returns, and has sent `a` on `hub.unregister`: the deferred
function runs on this return as on every other. -/
theorem writeMessage_closed_queue_signals :
    ((unregisteredClient.client "a").send.closed = true ∧
      (unregisteredClient.client "a").send.buf.length = 0 ∧
      "a" ∉ unregisteredClient.clients.keys) ∧
    (Client.writeMessage unregisteredClient "a" [.send false]).returned = true ∧
    (Client.writeMessage unregisteredClient "a" [.send false]).calls.map (fun c => c.messageType)
      = [.close] ∧
    (Client.writeMessage unregisteredClient "a" [.send false]).unregister = ["a"] := by
  refine ⟨⟨?_, ?_, ?_⟩, ?_, ?_, ?_⟩ <;> decide

/-- C11, amended. When the client's channel is closed and holds no further
item, the receive case of `writeMessage` makes one `WriteMessage` call with the
close frame and the function returns, in whatever iteration of the loop this
happens; on a failed ping write and on a failed event write the function
returns as well. On every return the deferred function sends the client on
`hub.unregister`, exactly once, the return after the closed channel included,
and without a return nothing is sent; a loop that returned made a last call
that is the close frame or a failed write. The hub processes the request of a
client that is not in its registry as a no-op. -/
theorem writeMessage_closed_queue (w : World) (client : ClientID) (rest : List Select)
    (writeErr : Bool)
    (hbuf : (w.client client).send.buf = [])
    (hclosed : (w.client client).send.closed = true) :
    Client.writeMessage w client (.send writeErr :: rest)
      = ⟨w, [⟨.close, none, writeErr⟩], true, [client]⟩ ∧
    (∀ calls, Client.writeLoop client (.send writeErr :: rest) w calls
      = ⟨w, calls ++ [⟨.close, none, writeErr⟩], true⟩) ∧
    (∀ (v : World) (calls : List WriteCall),
      Client.writeLoop client (.ticker true :: rest) v calls
        = ⟨v, calls ++ [⟨.ping, none, true⟩], true⟩ ∧
      (Client.writeMessage v client (.ticker true :: rest)).unregister = [client]) ∧
    (∀ (v : World) (event : Event) (pending : List Event) (message : Bytes)
        (calls : List WriteCall),
      (v.client client).send.buf = event :: pending → event.Raw = .ok message →
      Client.writeLoop client (.send true :: rest) v calls
        = ⟨v.setClient client
            { v.client client with send := { (v.client client).send with buf := pending } },
          calls ++ [⟨.text, some message, true⟩], true⟩ ∧
      (Client.writeMessage v client (.send true :: rest)).unregister = [client]) ∧
    (∀ (v : World) (schedule : List Select),
      ((Client.writeMessage v client schedule).returned = true →
        (Client.writeMessage v client schedule).unregister = [client] ∧
        ∃ last, (Client.writeMessage v client schedule).calls.getLast? = some last ∧
          (last.messageType = .close ∨ last.err = true)) ∧
      ((Client.writeMessage v client schedule).returned = false →
        (Client.writeMessage v client schedule).unregister = [])) ∧
    (w.clients.has client = false → Hub.runUnregister w client = ⟨w, .done⟩) := by
  have hloop : ∀ calls, Client.writeLoop client (.send writeErr :: rest) w calls
      = ⟨w, calls ++ [⟨.close, none, writeErr⟩], true⟩ := by
    intro calls
    unfold Client.writeLoop
    simp [hbuf, hclosed]
  refine ⟨?_, hloop, ?_, ?_, ?_, ?_⟩
  · unfold Client.writeMessage
    simp [hloop]
  · intro v calls
    have hl : Client.writeLoop client (.ticker true :: rest) v calls
        = ⟨v, calls ++ [⟨.ping, none, true⟩], true⟩ := by
      unfold Client.writeLoop
      simp
    refine ⟨hl, ?_⟩
    unfold Client.writeMessage
    have hl0 : Client.writeLoop client (.ticker true :: rest) v []
        = ⟨v, [] ++ [⟨.ping, none, true⟩], true⟩ := by
      unfold Client.writeLoop
      simp
    simp [hl0]
  · intro v event pending message calls hb hr
    have hl : ∀ calls, Client.writeLoop client (.send true :: rest) v calls
        = ⟨v.setClient client
            { v.client client with send := { (v.client client).send with buf := pending } },
          calls ++ [⟨.text, some message, true⟩], true⟩ := by
      intro calls
      unfold Client.writeLoop
      simp [hb, hr]
    refine ⟨hl calls, ?_⟩
    unfold Client.writeMessage
    simp [hl]
  · intro v schedule
    constructor
    · intro hret
      have hret1 : (Client.writeLoop client schedule v []).returned = true := hret
      refine ⟨?_, Client.writeLoop_returned client schedule v [] hret1⟩
      unfold Client.writeMessage
      simp [hret1]
    · intro hret
      have hret1 : (Client.writeLoop client schedule v []).returned = false := hret
      unfold Client.writeMessage
      simp [hret1]
  · intro hno
    unfold Hub.runUnregister
    simp [hno]

/-- C11, amended, for the client `a` after the hub unregistered it: one close
frame, a return, and `a` sent on `hub.unregister`, which the hub then
processes as a no-op. -/
theorem writeMessage_closed_queue_witness :
    (unregisteredClient.client "a").send.buf = [] ∧
    (unregisteredClient.client "a").send.closed = true ∧
    Client.writeMessage unregisteredClient "a" [.send false]
      = ⟨unregisteredClient, [⟨.close, none, false⟩], true, ["a"]⟩ ∧
    Hub.runUnregister unregisteredClient "a" = ⟨unregisteredClient, .done⟩ :=
  ⟨rfl, rfl,
   (writeMessage_closed_queue unregisteredClient "a" [] false rfl rfl).1,
   (writeMessage_closed_queue unregisteredClient "a" [] false rfl rfl).2.2.2.2.2 (by decide)⟩

end Webs
